import Mathlib

/-!
Shallow embedding of the VEDS rust-routing crate (graph, constraints,
optimizer, gRPC response surface) for checking the natural-language
specification.  Machine numerics are modelled exactly: `rust_decimal`
values and `f64` quantities become `ℚ`; `chrono` timestamps become ℚ
hours since an arbitrary epoch; the `as i64` truncating casts used with
`Duration::hours` become `truncToInt`.  Randomized UUID fields are
modelled as the empty string (no claim mentions them).
-/

namespace VEDS

attribute [local semireducible] Rat.add Rat.mul Rat.sub Rat.inv

/-- Truncation toward zero, the semantics of Rust's `f64 as i64` cast. -/
def truncToInt (q : ℚ) : ℤ :=
  if 0 ≤ q then ⌊q⌋ else -⌊-q⌋

/-- Truncated value re-read as a rational number of hours, modelling
`Duration::hours(x as i64)` added to a timestamp. -/
def truncHours (q : ℚ) : ℚ := (truncToInt q : ℚ)

/-- Transport mode (graph/mod.rs). -/
inductive TransportMode where
  | Maritime
  | Rail
  | Road
  | Air
deriving DecidableEq, Repr

/-- Typical mode transfer time in hours (graph/mod.rs `mode_transfer_hours`). -/
def TransportMode.mode_transfer_hours (m tgt : TransportMode) : ℚ :=
  match m, tgt with
  | .Maritime, .Rail => 24
  | .Maritime, .Road => 12
  | .Rail, .Road => 6
  | .Rail, .Maritime => 24
  | .Road, .Rail => 6
  | .Road, .Maritime => 12
  | .Air, _ => 4
  | _, .Air => 4
  | _, _ => 2

/-- A node in the transport network (graph/mod.rs `TransportNode`). -/
structure TransportNode where
  id : String
  code : String
  name : String
  country_code : String
  lat : ℚ
  lon : ℚ
  modes : List TransportMode
  avg_dwell_hours : ℚ
deriving DecidableEq, Repr

/-- An edge in the transport network (graph/mod.rs `TransportEdge`). -/
structure TransportEdge where
  id : String
  code : String
  mode : TransportMode
  carrier_code : String
  carrier_name : String
  distance_km : ℚ
  base_cost_usd : ℚ
  cost_per_kg : ℚ
  transit_hours : ℚ
  carbon_per_tonne_km : ℚ
  carrier_wage_cents : ℤ
  carrier_safety_rating : ℤ
  carrier_unionized : Bool
  carrier_sanctioned : Bool
  active : Bool
deriving DecidableEq, Repr

/-- Cost for a given weight (graph/mod.rs `TransportEdge::calculate_cost`). -/
def TransportEdge.calculate_cost (e : TransportEdge) (weight_kg : ℚ) : ℚ :=
  e.base_cost_usd + e.cost_per_kg * weight_kg

/-- Carbon emissions (graph/mod.rs `TransportEdge::calculate_carbon`). -/
def TransportEdge.calculate_carbon (e : TransportEdge) (weight_kg : ℚ) : ℚ :=
  e.distance_km * (weight_kg / 1000) * e.carbon_per_tonne_km

/-- Labor score (graph/mod.rs `TransportEdge::labor_score`). -/
def TransportEdge.labor_score (e : TransportEdge) (country_min_wage : ℤ) : ℚ :=
  let wage_score : ℚ :=
    if 0 < country_min_wage then
      min ((e.carrier_wage_cents : ℚ) / (2 * (country_min_wage : ℚ))) 1
    else (1 : ℚ) / 2
  let safety_score : ℚ := (e.carrier_safety_rating : ℚ) / 5
  let union_score : ℚ := if e.carrier_unionized then 1 else (1 : ℚ) / 2
  (2 : ℚ) / 5 * wage_score + (2 : ℚ) / 5 * safety_score + (1 : ℚ) / 5 * union_score

/-- The transport graph (graph/mod.rs `TransportGraph`).  The petgraph
`DiGraph` is modelled by a node list (node index = list position) and an
edge list of (source index, target index, edge weight); the code index
`HashMap` is modelled by an association list where the most recent
binding shadows older ones, matching `HashMap::insert` overwrite
semantics under `HashMap::get`. -/
structure TransportGraph where
  nodes : List TransportNode
  edges : List (ℕ × ℕ × TransportEdge)
  node_index : List (String × ℕ)
deriving DecidableEq, Repr

/-- Empty graph (graph/mod.rs `TransportGraph::new`; load metadata fields
carry no claim content and are omitted). -/
def TransportGraph.new : TransportGraph :=
  { nodes := [], edges := [], node_index := [] }

/-- Add a node (graph/mod.rs `TransportGraph::add_node`): petgraph
`add_node` appends and returns the fresh index; the code binding is
overwritten. -/
def TransportGraph.add_node (g : TransportGraph) (node : TransportNode) :
    TransportGraph × ℕ :=
  let idx := g.nodes.length
  ({ g with
      nodes := g.nodes ++ [node]
      node_index := (node.code, idx) :: g.node_index }, idx)

/-- Get node index by code (graph/mod.rs `TransportGraph::get_node_index`). -/
def TransportGraph.get_node_index (g : TransportGraph) (code : String) : Option ℕ :=
  (g.node_index.lookup code)

/-- Placeholder node used to model petgraph's indexing operator, which in
the source can only be reached with valid indices. -/
def defaultNode : TransportNode :=
  { id := "", code := "", name := "", country_code := "", lat := 0, lon := 0
    modes := [], avg_dwell_hours := 0 }

/-- Get node by code (graph/mod.rs `TransportGraph::get_node`). -/
def TransportGraph.get_node (g : TransportGraph) (code : String) : Option TransportNode :=
  (g.node_index.lookup code).map (fun idx => g.nodes.getD idx defaultNode)

/-- Add an edge (graph/mod.rs `TransportGraph::add_edge`): returns false
without mutation when either endpoint code is unbound. -/
def TransportGraph.add_edge (g : TransportGraph) (from_code to_code : String)
    (edge : TransportEdge) : TransportGraph × Bool :=
  match g.node_index.lookup from_code, g.node_index.lookup to_code with
  | some from_idx, some to_idx =>
      ({ g with edges := g.edges ++ [(from_idx, to_idx, edge)] }, true)
  | _, _ => (g, false)

/-- Number of nodes (graph/mod.rs `TransportGraph::node_count`). -/
def TransportGraph.node_count (g : TransportGraph) : ℕ := g.nodes.length

/-- Number of edges (graph/mod.rs `TransportGraph::edge_count`). -/
def TransportGraph.edge_count (g : TransportGraph) : ℕ := g.edges.length

/-- Outgoing edges of a node, as (target index, edge) pairs, modelling
`inner_graph.edges(state.node)` in the optimizer search. -/
def TransportGraph.edgesFrom (g : TransportGraph) (u : ℕ) : List (ℕ × TransportEdge) :=
  (g.edges.filter (fun t => t.1 = u)).map (fun t => (t.2.1, t.2.2))

/-- Optimization request parameters (optimizer/mod.rs `OptimizeRequest`).
Timestamps are ℚ hours; `Option ℚ` models Rust `Option` fields. -/
structure OptimizeRequest where
  shipment_id : String
  origin_code : String
  destination_code : String
  weight_kg : ℚ
  volume_m3 : ℚ
  pickup_after : ℚ
  deliver_by : ℚ
  max_cost_usd : Option ℚ
  max_carbon_kg : Option ℚ
  min_labor_score : Option ℚ
  allowed_modes : List TransportMode
  excluded_carriers : List String
  max_routes : ℕ
  max_segments : ℕ
  cost_weight : ℚ
  time_weight : ℚ
  carbon_weight : ℚ
  labor_weight : ℚ
deriving DecidableEq, Repr

/-- Types of constraints (constraints/mod.rs `ConstraintType`). -/
inductive ConstraintType where
  | Wage
  | Carbon
  | Time
  | Cost
  | Sanction
  | Mode
  | Custom
deriving DecidableEq, Repr

/-- Result of constraint evaluation (constraints/mod.rs `ConstraintResult`). -/
structure ConstraintResult where
  constraint_id : String
  constraint_type : ConstraintType
  passed : Bool
  is_hard : Bool
  score : ℚ
  message : String
deriving DecidableEq, Repr

/-- Cached constraint lookup tables (constraints/mod.rs `ConstraintCache`);
the hash map and hash set are modelled as association/member lists. -/
structure ConstraintCache where
  min_wages : List (String × ℤ)
  max_hours : List (String × ℤ)
  sanctioned_carriers : List String
deriving DecidableEq, Repr

/-- A segment of a route (optimizer/mod.rs `RouteSegment`); the random
`segment_id` UUID is modelled as the empty string. -/
structure RouteSegment where
  segment_id : String
  sequence : ℕ
  from_node : String
  to_node : String
  mode : TransportMode
  carrier_code : String
  distance_km : ℚ
  cost_usd : ℚ
  transit_hours : ℚ
  carbon_kg : ℚ
  carrier_wage_cents : ℤ
  labor_score : ℚ
  departure_time : ℚ
  arrival_time : ℚ
deriving DecidableEq, Repr

/-- A candidate route (optimizer/mod.rs `CandidateRoute`); the random
`route_id` UUID is modelled as the empty string. -/
structure CandidateRoute where
  route_id : String
  segments : List RouteSegment
  total_cost_usd : ℚ
  total_time_hours : ℚ
  total_carbon_kg : ℚ
  total_distance_km : ℚ
  labor_score : ℚ
  pareto_rank : ℕ
  pareto_optimal : Bool
  weighted_score : ℚ
  constraint_results : List ConstraintResult
deriving DecidableEq, Repr

/-- Fresh empty route (optimizer/mod.rs `CandidateRoute::new`). -/
def CandidateRoute.new : CandidateRoute :=
  { route_id := "", segments := [], total_cost_usd := 0, total_time_hours := 0
    total_carbon_kg := 0, total_distance_km := 0, labor_score := 0
    pareto_rank := 0, pareto_optimal := false, weighted_score := 0
    constraint_results := [] }

/-- Calculate totals from segments (optimizer/mod.rs
`CandidateRoute::recalculate_totals`). -/
def CandidateRoute.recalculate_totals (r : CandidateRoute) : CandidateRoute :=
  let base := { r with
    total_cost_usd := (r.segments.map (·.cost_usd)).sum
    total_time_hours := (r.segments.map (·.transit_hours)).sum
    total_carbon_kg := (r.segments.map (·.carbon_kg)).sum
    total_distance_km := (r.segments.map (·.distance_km)).sum }
  if r.segments.isEmpty then base
  else { base with
    labor_score := (r.segments.map (·.labor_score)).sum / (r.segments.length : ℚ) }

/-- Minimum wage looked up by the wage constraint: the cache is keyed by
the segment's `to_node` value with fallback 800 cents/hour
(constraints/mod.rs `check_wage_constraint`). -/
def ConstraintCache.minWageFor (cache : ConstraintCache) (s : RouteSegment) : ℤ :=
  (cache.min_wages.lookup s.to_node).getD 800

/-- Check sanction constraint, HARD (constraints/mod.rs
`check_sanction_constraint`). -/
def check_sanction_constraint (cache : ConstraintCache) (route : CandidateRoute) :
    ConstraintResult :=
  let violations := (route.segments.filter
      (fun s => s.carrier_code ∈ cache.sanctioned_carriers)).map (·.carrier_code)
  let passed := violations.isEmpty
  let message := if passed then "No sanctioned carriers"
    else "Sanctioned carriers: " ++ String.intercalate ", " violations
  { constraint_id := "sanction-check", constraint_type := .Sanction
    passed := passed, is_hard := true, score := if passed then 1 else 0
    message := message }

/-- Check wage constraint, HARD (constraints/mod.rs `check_wage_constraint`). -/
def check_wage_constraint (cache : ConstraintCache) (route : CandidateRoute) :
    ConstraintResult :=
  let violations := (route.segments.filter
      (fun s => s.carrier_wage_cents < cache.minWageFor s)).map
      (fun s => "Segment " ++ toString s.sequence ++ ": wage " ++
        toString s.carrier_wage_cents ++ " < min " ++ toString (cache.minWageFor s))
  let passed := violations.isEmpty
  let message := if passed then "All segments meet wage requirements"
    else String.intercalate "; " violations
  { constraint_id := "wage-minimum", constraint_type := .Wage
    passed := passed, is_hard := true, score := if passed then 1 else 0
    message := message }

/-- Check time constraint, HARD (constraints/mod.rs `check_time_constraint`);
`num_hours` on a chrono `Duration` truncates toward zero.  The float
`format!` renderings in the message carry no claim content and are
modelled by `toString` on ℚ. -/
def check_time_constraint (route : CandidateRoute) (request : OptimizeRequest) :
    ConstraintResult :=
  let max_hours : ℚ := (truncToInt (request.deliver_by - request.pickup_after) : ℚ)
  let passed := route.total_time_hours ≤ max_hours
  let message := if passed then
      "Route time " ++ toString route.total_time_hours ++ "h within window " ++
        toString max_hours ++ "h"
    else
      "Route time " ++ toString route.total_time_hours ++ "h exceeds window " ++
        toString max_hours ++ "h by " ++
        toString (route.total_time_hours - max_hours) ++ "h"
  { constraint_id := "time-window", constraint_type := .Time
    passed := passed, is_hard := true, score := if passed then 1 else 0
    message := message }

/-- Check cost constraint, SOFT (constraints/mod.rs `check_cost_constraint`). -/
def check_cost_constraint (route : CandidateRoute) (max_cost : ℚ) : ConstraintResult :=
  let passed := route.total_cost_usd ≤ max_cost
  let score := if 0 < max_cost then
      max (1 - route.total_cost_usd / max_cost) 0
    else 0
  { constraint_id := "cost-budget", constraint_type := .Cost
    passed := passed, is_hard := false, score := score
    message := "Cost $" ++ toString route.total_cost_usd ++ " vs budget $" ++
      toString max_cost }

/-- Check carbon constraint, SOFT (constraints/mod.rs `check_carbon_constraint`). -/
def check_carbon_constraint (route : CandidateRoute) (max_carbon : ℚ) : ConstraintResult :=
  let passed := route.total_carbon_kg ≤ max_carbon
  let score := if 0 < max_carbon then
      max (1 - route.total_carbon_kg / max_carbon) 0
    else 0
  { constraint_id := "carbon-budget", constraint_type := .Carbon
    passed := passed, is_hard := false, score := score
    message := "Carbon " ++ toString route.total_carbon_kg ++ "kg vs budget " ++
      toString max_carbon ++ "kg" }

/-- Check labor score constraint, SOFT (constraints/mod.rs
`check_labor_constraint`). -/
def check_labor_constraint (route : CandidateRoute) (min_score : ℚ) : ConstraintResult :=
  { constraint_id := "labor-minimum", constraint_type := .Wage
    passed := min_score ≤ route.labor_score, is_hard := false
    score := route.labor_score
    message := "Labor score " ++ toString route.labor_score ++ " vs minimum " ++
      toString min_score }

/-- Evaluate all constraints for a route (constraints/mod.rs
`ConstraintEngine::evaluate_route`). -/
def evaluate_route (cache : ConstraintCache) (route : CandidateRoute)
    (request : OptimizeRequest) : List ConstraintResult :=
  [check_sanction_constraint cache route,
   check_wage_constraint cache route,
   check_time_constraint route request] ++
  (match request.max_cost_usd with
   | some max_cost => [check_cost_constraint route max_cost]
   | none => []) ++
  (match request.max_carbon_kg with
   | some max_carbon => [check_carbon_constraint route max_carbon]
   | none => []) ++
  (match request.min_labor_score with
   | some min_labor => [check_labor_constraint route min_labor]
   | none => [])

/-- State for path search (optimizer/mod.rs `SearchState`). -/
structure SearchState where
  node : ℕ
  path : List (ℕ × TransportEdge)
  cost : ℚ
  time_hours : ℚ
  carbon_kg : ℚ
  current_time : ℚ
deriving DecidableEq, Repr

/-- Pop the minimum-cost state, modelling `BinaryHeap::pop` under the
`Ord` instance on `SearchState` that compares only `cost` (reversed for a
min-heap).  Ties between equal costs are resolved to the earliest
element; the Rust heap leaves tie order unspecified. -/
def popMin : List SearchState → Option (SearchState × List SearchState)
  | [] => none
  | s :: rest =>
    match popMin rest with
    | none => some (s, [])
    | some (m, rest') =>
      if s.cost ≤ m.cost then some (s, rest) else some (m, s :: rest')

/-- Child states pushed when exploring the neighbors of a popped state
(optimizer/mod.rs `find_k_shortest_paths`, inner `for edge_ref` loop),
with the pruning predicates and the time gate in source order. -/
def stepChildren (g : TransportGraph) (req : OptimizeRequest)
    (state : SearchState) : List SearchState :=
  (g.edgesFrom state.node).filterMap (fun te =>
    let target := te.1
    let edge := te.2
    if edge.active = false then none
    else if req.allowed_modes ≠ [] ∧ edge.mode ∉ req.allowed_modes then none
    else if edge.carrier_code ∈ req.excluded_carriers then none
    else if edge.carrier_sanctioned = true then none
    else
      let new_cost := state.cost + edge.calculate_cost req.weight_kg
      let new_time := state.time_hours + edge.transit_hours
      let new_carbon := state.carbon_kg + edge.calculate_carbon req.weight_kg
      let transfer_time := match state.path.getLast? with
        | some le => (le.2.mode.mode_transfer_hours edge.mode)
        | none => 0
      let total_time := new_time + transfer_time
      let arrival := state.current_time + truncHours total_time
      if req.deliver_by < arrival then none
      else some { node := target, path := state.path ++ [(target, edge)]
                  cost := new_cost, time_hours := total_time
                  carbon_kg := new_carbon, current_time := arrival })

/-- One fuel-indexed unrolling of the `while let Some(state) = heap.pop()`
loop of `find_k_shortest_paths`.  The visit-count map becomes a function
ℕ → ℕ.  Fuel only bounds the number of pops; `find_k_shortest_paths`
supplies enough fuel to cover every reachable pop (see the bound there). -/
def searchLoop (g : TransportGraph) (req : OptimizeRequest) (destination k : ℕ) :
    ℕ → List SearchState → (ℕ → ℕ) → List (List (ℕ × TransportEdge)) →
    List (List (ℕ × TransportEdge))
  | 0, _, _, paths => paths
  | fuel + 1, heap, counts, paths =>
    match popMin heap with
    | none => paths
    | some (state, heap') =>
      let count := counts state.node + 1
      let counts' := fun n => if n = state.node then count else counts n
      if k < count then
        searchLoop g req destination k fuel heap' counts' paths
      else if state.node = destination ∧ state.path ≠ [] then
        let paths' := paths ++ [state.path]
        if k ≤ paths'.length then paths'
        else searchLoop g req destination k fuel heap' counts' paths'
      else if req.max_segments ≤ state.path.length then
        searchLoop g req destination k fuel heap' counts' paths
      else
        searchLoop g req destination k fuel
          (heap' ++ stepChildren g req state) counts' paths

/-- Find k-shortest paths (optimizer/mod.rs `find_k_shortest_paths`).
The fuel bounds the number of heap pops: at most `k` pops per node lead
to pushes, each pushing at most `edge_count` children, so the total
number of pops never exceeds `(k+1)·(nodes+1)·(edges+1)`; the claims
proved below hold for every fuel value. -/
def find_k_shortest_paths (g : TransportGraph) (origin destination : ℕ)
    (req : OptimizeRequest) (k : ℕ) : List (List (ℕ × TransportEdge)) :=
  let fuel := (k + 1) * (g.nodes.length + 1) * (g.edges.length + 1) + 1
  searchLoop g req destination k fuel
    [{ node := origin, path := [], cost := 0, time_hours := 0
       carbon_kg := 0, current_time := req.pickup_after }]
    (fun _ => 0) []

/-- Segment construction of `path_to_route` (optimizer/mod.rs); the
enumeration index, running clock, and previous edge (whose mode and
carrier code the source reads back from the path) are carried as
parameters. -/
def buildSegments (g : TransportGraph) (req : OptimizeRequest) :
    List (ℕ × TransportEdge) → ℕ → ℚ → Option TransportEdge → List RouteSegment
  | [], _, _, _ => []
  | (node_idx, edge) :: rest, seq, current_time, prev =>
    let ct := match prev with
      | some pm =>
        if pm.mode ≠ edge.mode then
          current_time + truncHours (pm.mode.mode_transfer_hours edge.mode)
        else current_time
      | none => current_time
    let departure := ct
    let arrival := departure + truncHours edge.transit_hours
    let target_node := g.nodes.getD node_idx defaultNode
    let seg : RouteSegment :=
      { segment_id := "", sequence := seq
        from_node := match prev with
          | none => req.origin_code
          | some pm => pm.carrier_code
        to_node := target_node.code, mode := edge.mode
        carrier_code := edge.carrier_code, distance_km := edge.distance_km
        cost_usd := edge.calculate_cost req.weight_kg
        transit_hours := edge.transit_hours
        carbon_kg := edge.calculate_carbon req.weight_kg
        carrier_wage_cents := edge.carrier_wage_cents
        labor_score := edge.labor_score 1500
        departure_time := departure, arrival_time := arrival }
    seg :: buildSegments g req rest (seq + 1) arrival (some edge)

/-- Convert a path to a full route (optimizer/mod.rs `path_to_route`). -/
def path_to_route (g : TransportGraph) (req : OptimizeRequest)
    (path : List (ℕ × TransportEdge)) : CandidateRoute :=
  ({ CandidateRoute.new with
      segments := buildSegments g req path 0 req.pickup_after none }).recalculate_totals

/-- Check if route A dominates route B (optimizer/mod.rs `dominates`). -/
def dominates (a b : CandidateRoute) : Bool :=
  decide (a.total_cost_usd ≤ b.total_cost_usd) &&
  decide (a.total_time_hours ≤ b.total_time_hours) &&
  decide (a.total_carbon_kg ≤ b.total_carbon_kg) &&
  decide (b.labor_score ≤ a.labor_score) &&
  (decide (a.total_cost_usd < b.total_cost_usd) ||
   decide (a.total_time_hours < b.total_time_hours) ||
   decide (a.total_carbon_kg < b.total_carbon_kg) ||
   decide (b.labor_score < a.labor_score))

/-- Initial `dominated_count` of `calculate_pareto_ranks`: the number of
indices i ≠ j whose route dominates route j. -/
def initCounts (routes : List CandidateRoute) (j : ℕ) : ℕ :=
  ((List.range routes.length).filter (fun i =>
    decide (i ≠ j) &&
    dominates (routes.getD i CandidateRoute.new) (routes.getD j CandidateRoute.new))).length

/-- Mutable state of the rank-assignment loop of `calculate_pareto_ranks`:
the `remaining` index set (HashSet modelled as a duplicate-free list), the
`dominated_count`, `ranks`, and `pareto_optimal` arrays modelled as
functions from indices. -/
structure NdsState where
  remaining : List ℕ
  counts : ℕ → ℕ
  ranks : ℕ → ℕ
  opt : ℕ → Bool

/-- Processing of one frontier member inside `calculate_pareto_ranks`:
assign the current rank and optimal flag, remove it from `remaining`, and
decrement the dominated counts of the remaining routes it dominates
(`saturating_sub` is ℕ subtraction). -/
def removeOne (routes : List CandidateRoute) (current_rank : ℕ)
    (st : NdsState) (i : ℕ) : NdsState :=
  let remaining' := st.remaining.erase i
  { remaining := remaining'
    counts := fun j =>
      if j ∈ remaining' ∧
          dominates (routes.getD i CandidateRoute.new) (routes.getD j CandidateRoute.new) then
        st.counts j - 1
      else st.counts j
    ranks := fun x => if x = i then current_rank else st.ranks x
    opt := fun x => if x = i then decide (current_rank = 1) else st.opt x }

/-- The `while !remaining.is_empty()` loop of `calculate_pareto_ranks`,
fuel-indexed; `calculate_pareto_ranks` supplies fuel `n + 1`, which
covers every iteration because each pass through the frontier branch
removes at least one index. -/
def ndsLoop (routes : List CandidateRoute) :
    ℕ → NdsState → ℕ → ((ℕ → ℕ) × (ℕ → Bool))
  | 0, st, _ => (st.ranks, st.opt)
  | fuel + 1, st, current_rank =>
    if st.remaining.isEmpty then (st.ranks, st.opt)
    else
      let non_dominated := st.remaining.filter (fun i => st.counts i == 0)
      if non_dominated.isEmpty then
        (fun j => if j ∈ st.remaining then current_rank else st.ranks j, st.opt)
      else
        ndsLoop routes fuel
          (non_dominated.foldl (removeOne routes current_rank) st) (current_rank + 1)

/-- Calculate Pareto ranks (optimizer/mod.rs `calculate_pareto_ranks`):
ranks start at 0, `pareto_optimal` flags start at the routes' incoming
values, and the loop starts at rank 1 over all indices. -/
def calculate_pareto_ranks (routes : List CandidateRoute) : List CandidateRoute :=
  let n := routes.length
  let st0 : NdsState :=
    { remaining := List.range n, counts := initCounts routes
      ranks := fun _ => 0
      opt := fun i => (routes.getD i CandidateRoute.new).pareto_optimal }
  let res := ndsLoop routes (n + 1) st0 1
  (List.range n).map (fun i =>
    { routes.getD i CandidateRoute.new with
        pareto_rank := res.1 i, pareto_optimal := res.2 i })

/-- Variant of `ndsLoop` whose cycle-handling fallback branch assigns
nothing (leaving the 0 ranks) instead of the current rank; agreement with
`ndsLoop` certifies that the fallback branch is never taken. -/
def ndsLoopNF (routes : List CandidateRoute) :
    ℕ → NdsState → ℕ → ((ℕ → ℕ) × (ℕ → Bool))
  | 0, st, _ => (st.ranks, st.opt)
  | fuel + 1, st, current_rank =>
    if st.remaining.isEmpty then (st.ranks, st.opt)
    else
      let non_dominated := st.remaining.filter (fun i => st.counts i == 0)
      if non_dominated.isEmpty then (st.ranks, st.opt)
      else
        ndsLoopNF routes fuel
          (non_dominated.foldl (removeOne routes current_rank) st) (current_rank + 1)

/-- Variant of `calculate_pareto_ranks` built on `ndsLoopNF`. -/
def calculateParetoRanksNF (routes : List CandidateRoute) : List CandidateRoute :=
  let n := routes.length
  let st0 : NdsState :=
    { remaining := List.range n, counts := initCounts routes
      ranks := fun _ => 0
      opt := fun i => (routes.getD i CandidateRoute.new).pareto_optimal }
  let res := ndsLoopNF routes (n + 1) st0 1
  (List.range n).map (fun i =>
    { routes.getD i CandidateRoute.new with
        pareto_rank := res.1 i, pareto_optimal := res.2 i })

/-- Calculate weighted score (optimizer/mod.rs `calculate_weighted_score`):
the Decimal cost maximum defaults to 1 only on an empty set, while the
f64 time and carbon maxima are folds starting at 1 and therefore never
fall below 1. -/
def calculate_weighted_score (route : CandidateRoute) (request : OptimizeRequest)
    (all_routes : List CandidateRoute) : ℚ :=
  let max_cost := ((all_routes.map (·.total_cost_usd)).max?).getD 1
  let max_time := (all_routes.map (·.total_time_hours)).foldl max 1
  let max_carbon := (all_routes.map (·.total_carbon_kg)).foldl max 1
  let cost_norm := if 0 < max_cost then route.total_cost_usd / max_cost else 0
  let time_norm := if 0 < max_time then route.total_time_hours / max_time else 0
  let carbon_norm := if 0 < max_carbon then route.total_carbon_kg / max_carbon else 0
  let labor_norm := 1 - route.labor_score
  request.cost_weight * cost_norm + request.time_weight * time_norm +
    request.carbon_weight * carbon_norm + request.labor_weight * labor_norm

/-- Optimization result (optimizer/mod.rs `OptimizeResult`); the
wall-clock `optimization_time_ms` field is not statable in a pure
embedding and is omitted. -/
structure OptimizeResult where
  routes : List CandidateRoute
  candidates_evaluated : ℕ
deriving DecidableEq, Repr

/-- Candidate paths enumerated by `optimize` before materialization. -/
def candidatePaths (g : TransportGraph) (req : OptimizeRequest)
    (origin_idx dest_idx : ℕ) : List (List (ℕ × TransportEdge)) :=
  find_k_shortest_paths g origin_idx dest_idx req (req.max_routes * 3)

/-- Routes surviving the hard-constraint `retain` of `optimize`:
materialized candidates with constraint results attached, keeping those
whose hard results all passed. -/
def retainedRoutes (cache : ConstraintCache) (g : TransportGraph)
    (req : OptimizeRequest) (origin_idx dest_idx : ℕ) : List CandidateRoute :=
  (((candidatePaths g req origin_idx dest_idx).map (path_to_route g req)).map
    (fun r => { r with constraint_results := evaluate_route cache r req })).filter
    (fun r => (r.constraint_results.filter (·.is_hard)).all (·.passed))

/-- The surviving routes after `calculate_pareto_ranks` inside `optimize`. -/
def rankedAdmissible (cache : ConstraintCache) (g : TransportGraph)
    (req : OptimizeRequest) (origin_idx dest_idx : ℕ) : List CandidateRoute :=
  calculate_pareto_ranks (retainedRoutes cache g req origin_idx dest_idx)

/-- The ranked routes with `weighted_score` filled in; the source
computes each score against the whole post-rank vector. -/
def scoredRoutes (cache : ConstraintCache) (g : TransportGraph)
    (req : OptimizeRequest) (origin_idx dest_idx : ℕ) : List CandidateRoute :=
  let ranked := rankedAdmissible cache g req origin_idx dest_idx
  ranked.map (fun r =>
    { r with weighted_score := calculate_weighted_score r req ranked })

/-- Comparator of the final sort: Rust's stable `sort_by` with
`partial_cmp(..).unwrap_or(Equal)` places `a` no later than `b` exactly
when `a.weighted_score ≤ b.weighted_score` (ℚ comparison is total). -/
def routeLE (a b : CandidateRoute) : Prop :=
  a.weighted_score ≤ b.weighted_score

instance : DecidableRel routeLE :=
  fun a b => inferInstanceAs (Decidable (a.weighted_score ≤ b.weighted_score))

instance : IsTotal CandidateRoute routeLE :=
  ⟨fun a b => le_total a.weighted_score b.weighted_score⟩

instance : IsTrans CandidateRoute routeLE :=
  ⟨fun _ _ _ hab hbc => le_trans hab hbc⟩

/-- The scored routes after the final stable sort by ascending weighted
score: `routes.sort_by(|a, b| partial_cmp.unwrap_or(Equal))` is a stable
sort of the scored vector by `routeLE` and is modelled by the stable
`List.insertionSort`, whose output any stable sort agrees with. -/
def finalSorted (cache : ConstraintCache) (g : TransportGraph)
    (req : OptimizeRequest) (origin_idx dest_idx : ℕ) : List CandidateRoute :=
  (scoredRoutes cache g req origin_idx dest_idx).insertionSort routeLE

/-- Optimize routes for a shipment request (optimizer/mod.rs
`Optimizer::optimize`): unknown endpoint short-circuits; otherwise
search, materialize, evaluate constraints, retain hard-passing routes,
rank, score, stable-sort by weighted score, truncate. -/
def optimize (cache : ConstraintCache) (g : TransportGraph)
    (req : OptimizeRequest) : OptimizeResult :=
  match g.get_node_index req.origin_code with
  | none => { routes := [], candidates_evaluated := 0 }
  | some origin_idx =>
    match g.get_node_index req.destination_code with
    | none => { routes := [], candidates_evaluated := 0 }
    | some dest_idx =>
      let candidates := candidatePaths g req origin_idx dest_idx
      { routes := (finalSorted cache g req origin_idx dest_idx).take req.max_routes
        candidates_evaluated := candidates.length }

/-- The gRPC OptimizeRoutes response surface (grpc/mod.rs
`OptimizeResponse`); route payloads are kept in internal form, the
field-by-field proto conversion of `route_to_proto` being irrelevant to
the claims. -/
structure OptimizeResponse where
  success : Bool
  error_message : String
  routes : List CandidateRoute
  candidates_evaluated : ℕ
deriving DecidableEq, Repr

/-- The gRPC OptimizeRoutes handler (grpc/mod.rs `optimize_routes`).  In
the source, `parse_optimize_request` is infallible — every fallible
parse is given an `unwrap_or`/`unwrap_or_else` default — so the
`success: false` early return is dead code and the handler always
replies with `success: true`. -/
def optimize_routes (cache : ConstraintCache) (g : TransportGraph)
    (req : OptimizeRequest) : OptimizeResponse :=
  let result := optimize cache g req
  { success := true, error_message := ""
    routes := result.routes, candidates_evaluated := result.candidates_evaluated }

/-- Walk validity: the path is a chain of edges of `g` starting at `u`
and ending at `v`, phrased on the (target, edge) representation used by
the search. -/
def validWalk (g : TransportGraph) : ℕ → List (ℕ × TransportEdge) → ℕ → Bool
  | u, [], v => u == v
  | u, (t, e) :: rest, v => decide ((u, t, e) ∈ g.edges) && validWalk g t rest v

/-- Accumulated monetary cost of a path: the sum over its edges of
`base_cost_usd + cost_per_kg · weight_kg`. -/
def pathCost (req : OptimizeRequest) (p : List (ℕ × TransportEdge)) : ℚ :=
  (p.map (fun te => te.2.calculate_cost req.weight_kg)).sum

/-- Maximum of a list of values as the words of claim C6 prescribe it:
default 1 only when the set is empty or the values are all zero. -/
def specMaxC6 (vals : List ℚ) : ℚ :=
  if vals = [] ∨ vals.all (· = 0) then 1 else (vals.max?).getD 1

/-- Weighted score as the words of claim C6 prescribe it: each of the
cost, time, and carbon norms is the route's total divided by the
`specMaxC6` maximum of the pool's totals, and the labor norm is
`1 - labor_score`. -/
def specWeightedScoreC6 (route : CandidateRoute) (request : OptimizeRequest)
    (pool : List CandidateRoute) : ℚ :=
  request.cost_weight *
      (route.total_cost_usd / specMaxC6 (pool.map (·.total_cost_usd))) +
    request.time_weight *
      (route.total_time_hours / specMaxC6 (pool.map (·.total_time_hours))) +
    request.carbon_weight *
      (route.total_carbon_kg / specMaxC6 (pool.map (·.total_carbon_kg))) +
    request.labor_weight * (1 - route.labor_score)

/-- Normalization actually performed by `calculate_weighted_score`,
written out independently: the Decimal cost maximum defaults to 1 only
on an empty pool, the f64 time and carbon maxima are clamped below by 1,
and a non-positive maximum yields norm 0. -/
def amendedWeightedScore (route : CandidateRoute) (request : OptimizeRequest)
    (pool : List CandidateRoute) : ℚ :=
  let max_cost := if pool = [] then 1 else ((pool.map (·.total_cost_usd)).max?).getD 1
  let max_time := max 1 (((pool.map (·.total_time_hours)).max?).getD 1)
  let max_carbon := max 1 (((pool.map (·.total_carbon_kg)).max?).getD 1)
  (if 0 < max_cost then request.cost_weight * (route.total_cost_usd / max_cost) else 0) +
    request.time_weight * (route.total_time_hours / max_time) +
    request.carbon_weight * (route.total_carbon_kg / max_carbon) +
    request.labor_weight * (1 - route.labor_score)

/-- Placeholder segment used as the default of positional lookups. -/
def defaultSeg : RouteSegment :=
  { segment_id := "", sequence := 0, from_node := "", to_node := ""
    mode := .Road, carrier_code := "", distance_km := 0, cost_usd := 0
    transit_hours := 0, carbon_kg := 0, carrier_wage_cents := 0
    labor_score := 0, departure_time := 0, arrival_time := 0 }

/-- Placeholder constraint result used as the default of positional lookups. -/
def defaultCR : ConstraintResult :=
  { constraint_id := "", constraint_type := .Custom, passed := false
    is_hard := false, score := 0, message := "" }

/-! Concrete inputs used by the witnesses and counterexamples below. -/

/-- Example node carrying only a code. -/
def mkNode (c : String) : TransportNode :=
  { id := c, code := c, name := c, country_code := "XX", lat := 0, lon := 0
    modes := [], avg_dwell_hours := 0 }

/-- Example active, unsanctioned edge with the given carrier, mode, base
cost, and transit time. -/
def mkEdge (carrier : String) (m : TransportMode) (cost transit : ℚ) : TransportEdge :=
  { id := "e", code := "e", mode := m, carrier_code := carrier
    carrier_name := carrier, distance_km := 100, base_cost_usd := cost
    cost_per_kg := 0, transit_hours := transit, carbon_per_tonne_km := 0
    carrier_wage_cents := 2000, carrier_safety_rating := 4
    carrier_unionized := true, carrier_sanctioned := false, active := true }

/-- Example request from node A to node B with the source's default
weights (0.4 / 0.3 / 0.2 / 0.1). -/
def baseReq : OptimizeRequest :=
  { shipment_id := "s", origin_code := "A", destination_code := "B"
    weight_kg := 1000, volume_m3 := 1, pickup_after := 0, deliver_by := 720
    max_cost_usd := none, max_carbon_kg := none, min_labor_score := none
    allowed_modes := [], excluded_carriers := [], max_routes := 2
    max_segments := 8, cost_weight := 2/5, time_weight := 3/10
    carbon_weight := 1/5, labor_weight := 1/10 }

/-- Empty constraint cache. -/
def emptyCache : ConstraintCache :=
  { min_wages := [], max_hours := [], sanctioned_carriers := [] }

/-- Two nodes joined by one Maritime edge. -/
def exGraph1 : TransportGraph :=
  { nodes := [mkNode "A", mkNode "B"]
    edges := [(0, 1, mkEdge "CARR" .Maritime 100 10)]
    node_index := [("A", 0), ("B", 1)] }

/-- Three-node Maritime chain A → B → C. -/
def exGraph2 : TransportGraph :=
  { nodes := [mkNode "A", mkNode "B", mkNode "C"]
    edges := [(0, 1, mkEdge "CARR" .Maritime 100 10),
              (1, 2, mkEdge "CARR" .Maritime 100 10)]
    node_index := [("A", 0), ("B", 1), ("C", 2)] }

/-- Request from A to C. -/
def reqAC : OptimizeRequest := { baseReq with destination_code := "C" }

/-- Two nodes joined by three parallel edges with distinct costs. -/
def exGraph3 : TransportGraph :=
  { nodes := [mkNode "A", mkNode "B"]
    edges := [(0, 1, mkEdge "C0" .Maritime 5 10),
              (0, 1, mkEdge "C1" .Maritime 10 10),
              (0, 1, mkEdge "C2" .Maritime 20 5)]
    node_index := [("A", 0), ("B", 1)] }

/-- Request with all four objective weights zero, so every route's
weighted score ties at 0. -/
def reqZeroW : OptimizeRequest :=
  { baseReq with
    max_routes := 3
    cost_weight := 0
    time_weight := 0
    carbon_weight := 0
    labor_weight := 0 }

/-- Two nodes joined by one edge whose transit time is half an hour, so
the maximum route time across the pool is below 1. -/
def exGraph4 : TransportGraph :=
  { nodes := [mkNode "A", mkNode "B"]
    edges := [(0, 1, mkEdge "CARR" .Maritime 5 (1/2))]
    node_index := [("A", 0), ("B", 1)] }

/-- Request whose origin code names no node of the example graphs. -/
def reqBadOrigin : OptimizeRequest := { baseReq with origin_code := "X" }

/-- Request whose destination code names no node of the example graphs. -/
def reqBadDest : OptimizeRequest := { baseReq with destination_code := "X" }

/-- Route with a single segment paying 500 cents/hour, below the 800
fallback minimum. -/
def lowWageRoute : CandidateRoute :=
  { CandidateRoute.new with segments :=
      [{ defaultSeg with sequence := 0, to_node := "B", carrier_wage_cents := 500 }] }

/-- Clock relation between two consecutive segments produced by
`path_to_route`: on a mode change the departure is the previous arrival
plus the truncated transfer dwell; on the same mode it is the previous
arrival unchanged. -/
def segStep (s s' : RouteSegment) : Prop :=
  (s.mode ≠ s'.mode →
    s'.departure_time =
      s.arrival_time + truncHours (s.mode.mode_transfer_hours s'.mode)) ∧
  (s.mode = s'.mode → s'.departure_time = s.arrival_time)

/-- Number of indices in `S` (other than `j`) whose route dominates the
route at `j`; with `S = range n` this is exactly the `dominated_count`
array computed by `calculate_pareto_ranks`. -/
def domCount (routes : List CandidateRoute) (S : List ℕ) (j : ℕ) : ℕ :=
  (S.filter (fun i =>
    decide (i ≠ j) &&
    dominates (routes.getD i CandidateRoute.new)
      (routes.getD j CandidateRoute.new))).length

/-- Concrete route with unit cost, dominating `exRouteB`. -/
def exRouteA : CandidateRoute := { CandidateRoute.new with total_cost_usd := 1 }

/-- Concrete route with cost 2, dominated by `exRouteA`. -/
def exRouteB : CandidateRoute := { CandidateRoute.new with total_cost_usd := 2 }

/-- Concrete route with cost 3, dominated by both example routes. -/
def exRouteC : CandidateRoute := { CandidateRoute.new with total_cost_usd := 3 }

/-- C10: adding a node whose code is already bound neither rejects nor
removes the existing node — the node list grows by one keeping all old
nodes and edges — and the code index is rebound so that `get_node_index`
and `get_node` resolve to the new node and later `add_edge` calls on
that code attach edges at the new node's index. -/
theorem C10_add_node_duplicate_code (g : TransportGraph) (n : TransportNode)
    (_h : (g.get_node_index n.code).isSome = true) :
    ((g.add_node n).1.node_count = g.node_count + 1) ∧
    ((g.add_node n).1.edges = g.edges) ∧
    ((g.add_node n).1.nodes = g.nodes ++ [n]) ∧
    ((g.add_node n).1.get_node_index n.code = some g.nodes.length) ∧
    ((g.add_node n).1.get_node n.code = some n) ∧
    (∀ tc ti e, (g.add_node n).1.get_node_index tc = some ti →
      (g.add_node n).1.add_edge n.code tc e =
        ({ (g.add_node n).1 with
            edges := (g.add_node n).1.edges ++ [(g.nodes.length, ti, e)] }, true)) := by
  refine ⟨?_, rfl, rfl, ?_, ?_, ?_⟩
  · simp [TransportGraph.add_node, TransportGraph.node_count]
  · simp [TransportGraph.add_node, TransportGraph.get_node_index, List.lookup]
  · simp [TransportGraph.add_node, TransportGraph.get_node, List.lookup]
  · intro tc ti e hti
    have hn : (g.add_node n).1.node_index.lookup n.code = some g.nodes.length := by
      simp [TransportGraph.add_node, List.lookup]
    have ht : (g.add_node n).1.node_index.lookup tc = some ti := hti
    simp [TransportGraph.add_edge, hn, ht]

/-- Witness for C10 at a concrete graph whose code "A" is already bound. -/
theorem C10_add_node_duplicate_code_witness :
    ((exGraph1.add_node (mkNode "A")).1.node_count = exGraph1.node_count + 1) ∧
    ((exGraph1.add_node (mkNode "A")).1.edges = exGraph1.edges) ∧
    ((exGraph1.add_node (mkNode "A")).1.nodes = exGraph1.nodes ++ [mkNode "A"]) ∧
    ((exGraph1.add_node (mkNode "A")).1.get_node_index "A" = some 2) ∧
    ((exGraph1.add_node (mkNode "A")).1.get_node "A" = some (mkNode "A")) := by
  have h := C10_add_node_duplicate_code exGraph1 (mkNode "A") (by decide)
  exact ⟨h.1, h.2.1, h.2.2.1, h.2.2.2.1, h.2.2.2.2.1⟩

/-- C4: the wage hard constraint fails exactly when some segment's
carrier wage is strictly below the minimum found by looking the
segment's `to_node` up in the cache (fallback 800), and on failure the
message lists each violating segment. -/
theorem C4_wage_constraint (cache : ConstraintCache) (route : CandidateRoute) :
    ((check_wage_constraint cache route).is_hard = true) ∧
    ((check_wage_constraint cache route).passed = false ↔
      ∃ s ∈ route.segments, s.carrier_wage_cents < cache.minWageFor s) ∧
    ((check_wage_constraint cache route).passed = false →
      (check_wage_constraint cache route).message = String.intercalate "; "
        ((route.segments.filter
            (fun s => s.carrier_wage_cents < cache.minWageFor s)).map
          (fun s => "Segment " ++ toString s.sequence ++ ": wage " ++
            toString s.carrier_wage_cents ++ " < min " ++
            toString (cache.minWageFor s)))) := by
  refine ⟨rfl, ?_, ?_⟩
  · simp [check_wage_constraint, List.isEmpty_iff, List.filter_eq_nil_iff]
  · intro hfail
    have hv : ((route.segments.filter
        (fun s => s.carrier_wage_cents < cache.minWageFor s)).map
          (fun s => "Segment " ++ toString s.sequence ++ ": wage " ++
            toString s.carrier_wage_cents ++ " < min " ++
            toString (cache.minWageFor s))).isEmpty = false := by
      simpa [check_wage_constraint] using hfail
    simp [check_wage_constraint, hv]

/-- Witness for C4 at a one-segment route paying 500 against the 800
fallback minimum. -/
theorem C4_wage_constraint_witness :
    (check_wage_constraint emptyCache lowWageRoute).message =
      "Segment 0: wage 500 < min 800" := by
  have h := (C4_wage_constraint emptyCache lowWageRoute).2.2 (by decide)
  rw [h]
  decide

/-- C8 counterexample: on a request whose origin code is unknown, the
handler still replies `success = true` (the claim says the response is
non-success), while returning the empty route list and zero candidates. -/
theorem C8_counterexample :
    (optimize_routes emptyCache exGraph1 reqBadOrigin).success = true ∧
    (optimize_routes emptyCache exGraph1 reqBadOrigin).routes = [] ∧
    (optimize_routes emptyCache exGraph1 reqBadOrigin).candidates_evaluated = 0 := by
  decide

/-- C8 amended: an unknown origin or destination code yields an empty
route list with zero candidates evaluated and no exception, but the
response reports `success = true`, not `success = false`. -/
theorem C8_unknown_endpoint (cache : ConstraintCache) (g : TransportGraph)
    (req : OptimizeRequest)
    (h : g.get_node_index req.origin_code = none ∨
         g.get_node_index req.destination_code = none) :
    (optimize_routes cache g req).routes = [] ∧
    (optimize_routes cache g req).candidates_evaluated = 0 ∧
    (optimize_routes cache g req).success = true := by
  unfold optimize_routes optimize
  rcases h with h | h
  · rw [h]; exact ⟨rfl, rfl, rfl⟩
  · cases ho : g.get_node_index req.origin_code with
    | none => exact ⟨rfl, rfl, rfl⟩
    | some o => rw [h]; exact ⟨rfl, rfl, rfl⟩

/-- Witness for C8 at a concrete unknown destination code. -/
theorem C8_unknown_endpoint_witness :
    (optimize_routes emptyCache exGraph1 reqBadDest).routes = [] ∧
    (optimize_routes emptyCache exGraph1 reqBadDest).candidates_evaluated = 0 ∧
    (optimize_routes emptyCache exGraph1 reqBadDest).success = true :=
  C8_unknown_endpoint emptyCache exGraph1 reqBadDest (Or.inr (by decide))

/-- C3 counterexample: the Maritime chain A → B → C yields a returned
route whose two same-mode consecutive segments have departure minus
arrival equal to 0, strictly below the 2-hour same-mode transfer value,
because `path_to_route` applies the dwell only when the mode changes. -/
theorem C3_counterexample :
    1 < ((optimize emptyCache exGraph2 reqAC).routes.getD 0
        CandidateRoute.new).segments.length ∧
    ((((optimize emptyCache exGraph2 reqAC).routes.getD 0
          CandidateRoute.new).segments.getD 1 defaultSeg).departure_time -
      (((optimize emptyCache exGraph2 reqAC).routes.getD 0
          CandidateRoute.new).segments.getD 0 defaultSeg).arrival_time) <
      TransportMode.mode_transfer_hours
        (((optimize emptyCache exGraph2 reqAC).routes.getD 0
            CandidateRoute.new).segments.getD 0 defaultSeg).mode
        (((optimize emptyCache exGraph2 reqAC).routes.getD 0
            CandidateRoute.new).segments.getD 1 defaultSeg).mode := by
  decide

/-- C6 counterexample: on a pool whose only route takes half an hour,
the code divides the time total by 1 (the f64 fold starts at 1.0), not
by the pool maximum 1/2, so the returned weighted score differs from the
claim's formula. -/
theorem C6_counterexample :
    (optimize emptyCache exGraph4 baseReq).routes.length = 1 ∧
    ((optimize emptyCache exGraph4 baseReq).routes.getD 0
        CandidateRoute.new).weighted_score ≠
      specWeightedScoreC6
        ((optimize emptyCache exGraph4 baseReq).routes.getD 0 CandidateRoute.new)
        baseReq (rankedAdmissible emptyCache exGraph4 baseReq 0 1) := by
  decide

/-- Segments are untouched by `recalculate_totals`. -/
theorem recalculate_totals_segments (r : CandidateRoute) :
    r.recalculate_totals.segments = r.segments := by
  unfold CandidateRoute.recalculate_totals
  by_cases h : r.segments.isEmpty <;> simp [h]

/-- Membership in the Pareto-ranked list comes from a member of the
input list, with every field except the two Pareto fields preserved. -/
theorem mem_paretoRanks_fields {l : List CandidateRoute} {r : CandidateRoute}
    (h : r ∈ calculate_pareto_ranks l) :
    ∃ x ∈ l, r = { x with
      pareto_rank := r.pareto_rank, pareto_optimal := r.pareto_optimal } := by
  unfold calculate_pareto_ranks at h
  simp only [List.mem_map, List.mem_range] at h
  obtain ⟨i, hi, hr⟩ := h
  refine ⟨l.getD i CandidateRoute.new, ?_, ?_⟩
  · rw [List.getD_eq_getElem l CandidateRoute.new hi]
    exact List.getElem_mem hi
  · rw [← hr]

/-- Membership in the final route list of `optimize` comes from a member
of the ranked admissible pool, with only the weighted score replaced. -/
theorem mem_optimize_scored {cache : ConstraintCache} {g : TransportGraph}
    {req : OptimizeRequest} {r : CandidateRoute}
    (h : r ∈ (optimize cache g req).routes) :
    ∃ o d, g.get_node_index req.origin_code = some o ∧
      g.get_node_index req.destination_code = some d ∧
      ∃ x ∈ rankedAdmissible cache g req o d,
        r = { x with weighted_score :=
          calculate_weighted_score x req (rankedAdmissible cache g req o d) } := by
  unfold optimize at h
  cases ho : g.get_node_index req.origin_code with
  | none => rw [ho] at h; simp at h
  | some o =>
    cases hd : g.get_node_index req.destination_code with
    | none => rw [ho, hd] at h; simp at h
    | some d =>
      rw [ho, hd] at h
      simp only at h
      have h2 : r ∈ finalSorted cache g req o d :=
        (List.take_sublist _ _).mem h
      have h3 : r ∈ scoredRoutes cache g req o d := by
        unfold finalSorted at h2
        exact List.mem_insertionSort routeLE |>.mp h2
      unfold scoredRoutes at h3
      simp only [List.mem_map] at h3
      obtain ⟨x, hx, hr⟩ := h3
      exact ⟨o, d, rfl, rfl, x, hx, hr.symm⟩

/-- Every member of the retained list has all hard constraint results
passed; this is the `retain` filter of `optimize`. -/
theorem mem_retained_hard_pass {cache : ConstraintCache} {g : TransportGraph}
    {req : OptimizeRequest} {o d : ℕ} {x : CandidateRoute}
    (h : x ∈ retainedRoutes cache g req o d) :
    ∀ c ∈ x.constraint_results, c.is_hard = true → c.passed = true := by
  unfold retainedRoutes at h
  have := List.of_mem_filter h
  intro c hc hhard
  have hall := List.all_eq_true.mp this
  have := hall c (List.mem_filter.mpr ⟨hc, hhard⟩)
  simpa using this

/-- Members of the retained list are materialized candidate paths
carrying their evaluated constraint results. -/
theorem mem_retained_src {cache : ConstraintCache} {g : TransportGraph}
    {req : OptimizeRequest} {o d : ℕ} {x : CandidateRoute}
    (h : x ∈ retainedRoutes cache g req o d) :
    ∃ p ∈ candidatePaths g req o d,
      x = { path_to_route g req p with
        constraint_results := evaluate_route cache (path_to_route g req p) req } := by
  unfold retainedRoutes at h
  have h1 := List.mem_of_mem_filter h
  simp only [List.map_map, List.mem_map, Function.comp] at h1
  obtain ⟨p, hp, hx⟩ := h1
  exact ⟨p, hp, hx.symm⟩

/-- C1: every route returned by `optimize` has `passed = true` on each
of its hard constraint results: routes failing a hard constraint are
removed by the `retain` filter before ranking, scoring, and truncation,
and those stages do not alter constraint results. -/
theorem C1_returned_routes_pass_hard_constraints (cache : ConstraintCache)
    (g : TransportGraph) (req : OptimizeRequest) :
    ∀ r ∈ (optimize cache g req).routes,
      ∀ c ∈ r.constraint_results, c.is_hard = true → c.passed = true := by
  intro r hr c hc hhard
  obtain ⟨o, d, ho, hd, x, hx, hrx⟩ := mem_optimize_scored hr
  obtain ⟨y, hy, hxy⟩ := mem_paretoRanks_fields hx
  have hcr : r.constraint_results = y.constraint_results := by
    rw [hrx, hxy]
  rw [hcr] at hc
  exact mem_retained_hard_pass hy c hc hhard

/-- Witness for C1: the first constraint result of the first returned
route on the two-node example graph is hard and passed. -/
theorem C1_returned_routes_pass_hard_constraints_witness :
    (((optimize emptyCache exGraph1 baseReq).routes.getD 0
        CandidateRoute.new).constraint_results.getD 0 defaultCR).passed = true := by
  exact C1_returned_routes_pass_hard_constraints emptyCache exGraph1 baseReq
    ((optimize emptyCache exGraph1 baseReq).routes.getD 0 CandidateRoute.new)
    (by decide)
    (((optimize emptyCache exGraph1 baseReq).routes.getD 0
        CandidateRoute.new).constraint_results.getD 0 defaultCR)
    (by decide) (by decide)

/-- Truncation is exact on every entry of the transfer matrix (all
values are whole hours). -/
theorem truncHours_transfer (m m' : TransportMode) :
    truncHours (m.mode_transfer_hours m') = m.mode_transfer_hours m' := by
  cases m <;> cases m' <;> decide

/-- The segment list built by `path_to_route` satisfies the consecutive
clock relation `segStep`. -/
theorem buildSegments_chain (g : TransportGraph) (req : OptimizeRequest) :
    ∀ (l : List (ℕ × TransportEdge)) (seq : ℕ) (t : ℚ)
      (prev : Option TransportEdge),
      List.Chain' segStep (buildSegments g req l seq t prev) := by
  intro l
  induction l with
  | nil => intro seq t prev; exact List.chain'_nil
  | cons hd rest ih =>
    obtain ⟨idx, e⟩ := hd
    intro seq t prev
    simp only [buildSegments]
    refine List.chain'_cons'.mpr ⟨?_, ih _ _ _⟩
    intro b hb
    cases rest with
    | nil => simp [buildSegments] at hb
    | cons hd2 tl2 =>
      obtain ⟨idx2, e2⟩ := hd2
      simp only [buildSegments] at hb
      simp only [List.head?_cons, Option.mem_def, Option.some.injEq] at hb
      subst hb
      constructor
      · intro hne
        simp only at hne ⊢
        rw [if_pos hne]
      · intro heq
        simp only at heq ⊢
        rw [if_neg (by simpa using heq)]

/-- Every route returned by `optimize` has segments satisfying the
consecutive clock relation. -/
theorem route_segments_chain (cache : ConstraintCache) (g : TransportGraph)
    (req : OptimizeRequest) :
    ∀ r ∈ (optimize cache g req).routes, List.Chain' segStep r.segments := by
  intro r hr
  obtain ⟨o, d, _, _, x, hx, hrx⟩ := mem_optimize_scored hr
  obtain ⟨y, hy, hxy⟩ := mem_paretoRanks_fields hx
  obtain ⟨p, _, hyp⟩ := mem_retained_src hy
  have hseg : r.segments = buildSegments g req p 0 req.pickup_after none := by
    rw [hrx, hxy, hyp]
    show (path_to_route g req p).segments = _
    rw [path_to_route, recalculate_totals_segments]
  rw [hseg]
  exact buildSegments_chain g req p 0 _ none

/-- C3 amended: between consecutive segments of a returned route the
transfer dwell is applied only when the modes differ — there the gap
equals (hence is at least) `transferHours(s[i].mode, s[i+1].mode)` —
while for same-mode pairs the gap is 0, below the matrix's 2-hour
same-mode value. -/
theorem C3_transfer_dwell (cache : ConstraintCache) (g : TransportGraph)
    (req : OptimizeRequest) :
    ∀ r ∈ (optimize cache g req).routes, ∀ i : ℕ, i + 1 < r.segments.length →
      ((r.segments.getD i defaultSeg).mode ≠
          (r.segments.getD (i + 1) defaultSeg).mode →
        TransportMode.mode_transfer_hours (r.segments.getD i defaultSeg).mode
            (r.segments.getD (i + 1) defaultSeg).mode ≤
          (r.segments.getD (i + 1) defaultSeg).departure_time -
            (r.segments.getD i defaultSeg).arrival_time) ∧
      ((r.segments.getD i defaultSeg).mode =
          (r.segments.getD (i + 1) defaultSeg).mode →
        (r.segments.getD (i + 1) defaultSeg).departure_time -
          (r.segments.getD i defaultSeg).arrival_time = 0) := by
  intro r hr i hi
  have hchain := route_segments_chain cache g req r hr
  rw [List.chain'_iff_get] at hchain
  have hi1 : i < r.segments.length := by omega
  have hi2 : i + 1 < r.segments.length := hi
  have hrel := hchain i (by omega)
  rw [List.getD_eq_getElem _ _ hi1, List.getD_eq_getElem _ _ hi2]
  simp only [List.get_eq_getElem] at hrel
  constructor
  · intro hne
    rw [hrel.1 hne, truncHours_transfer]
    simp
  · intro heq
    rw [hrel.2 heq]
    simp

/-- Witness for the amended C3 at the Maritime chain: the same-mode gap
of the single returned route is 0. -/
theorem C3_transfer_dwell_witness :
    (((optimize emptyCache exGraph2 reqAC).routes.getD 0
        CandidateRoute.new).segments.getD 1 defaultSeg).departure_time -
      (((optimize emptyCache exGraph2 reqAC).routes.getD 0
        CandidateRoute.new).segments.getD 0 defaultSeg).arrival_time = 0 := by
  exact (C3_transfer_dwell emptyCache exGraph2 reqAC
    ((optimize emptyCache exGraph2 reqAC).routes.getD 0 CandidateRoute.new)
    (by decide) 0 (by decide)).2 (by decide)

/-- Folding `max` from a seed equals the seed joined with the list
maximum. -/
theorem foldl_max_eq_max (l : List ℚ) (a : ℚ) :
    l.foldl max a = max a ((l.max?).getD a) := by
  have aux : ∀ (l : List ℚ) (a x : ℚ),
      l.foldl max (max a x) = max a (l.foldl max x) := by
    intro l
    induction l with
    | nil => intro a x; rfl
    | cons y ys ih =>
      intro a x
      show ys.foldl max (max (max a x) y) = max a (ys.foldl max (max x y))
      rw [max_assoc, ih]
  cases l with
  | nil => simp
  | cons x xs =>
    show xs.foldl max (max a x) = max a ((xs.foldl max x))
    exact aux xs a x

/-- The score computed by `calculate_weighted_score` coincides with the
independently stated `amendedWeightedScore` normalization. -/
theorem calculate_weighted_score_eq_amended (route : CandidateRoute)
    (request : OptimizeRequest) (pool : List CandidateRoute) :
    calculate_weighted_score route request pool =
      amendedWeightedScore route request pool := by
  unfold calculate_weighted_score amendedWeightedScore
  rw [foldl_max_eq_max, foldl_max_eq_max]
  have htime : (0 : ℚ) < max 1 (((pool.map (·.total_time_hours)).max?).getD 1) :=
    lt_of_lt_of_le zero_lt_one (le_max_left _ _)
  have hcarbon : (0 : ℚ) < max 1 (((pool.map (·.total_carbon_kg)).max?).getD 1) :=
    lt_of_lt_of_le zero_lt_one (le_max_left _ _)
  dsimp only
  rw [if_pos htime, if_pos hcarbon]
  by_cases hp : pool = []
  · subst hp
    norm_num
  · rw [if_neg hp]
    by_cases hc : (0 : ℚ) < ((pool.map (·.total_cost_usd)).max?).getD 1
    · rw [if_pos hc, if_pos hc]
    · rw [if_neg hc, if_neg hc, mul_zero]

/-- C6 amended: every returned route's `weighted_score` equals the
weighted sum of normalized objectives where the cost maximum over the
admissible set defaults to 1 only when the set is empty (a non-positive
maximum yields norm 0), while the time and carbon maxima are clamped
below by 1 (the f64 fold starts at 1.0); the labor norm is
`1 − labor_score`. -/
theorem C6_weighted_score_formula (cache : ConstraintCache) (g : TransportGraph)
    (req : OptimizeRequest) (o d : ℕ)
    (ho : g.get_node_index req.origin_code = some o)
    (hd : g.get_node_index req.destination_code = some d) :
    ∀ r ∈ (optimize cache g req).routes,
      r.weighted_score =
        amendedWeightedScore r req (rankedAdmissible cache g req o d) := by
  intro r hr
  obtain ⟨o', d', ho', hd', x, hx, hrx⟩ := mem_optimize_scored hr
  have ho2 : o' = o := by rw [ho] at ho'; exact (Option.some.inj ho').symm
  have hd2 : d' = d := by rw [hd] at hd'; exact (Option.some.inj hd').symm
  subst ho2 hd2
  rw [hrx]
  exact calculate_weighted_score_eq_amended x req _

/-- Witness for the amended C6 on the half-hour-transit example. -/
theorem C6_weighted_score_formula_witness :
    ((optimize emptyCache exGraph4 baseReq).routes.getD 0
        CandidateRoute.new).weighted_score =
      amendedWeightedScore
        ((optimize emptyCache exGraph4 baseReq).routes.getD 0 CandidateRoute.new)
        baseReq (rankedAdmissible emptyCache exGraph4 baseReq 0 1) := by
  exact C6_weighted_score_formula emptyCache exGraph4 baseReq 0 1
    (by decide) (by decide)
    ((optimize emptyCache exGraph4 baseReq).routes.getD 0 CandidateRoute.new)
    (by decide)

/-- C7 amended: the final route list is the truncation to `max_routes`
of a stable sort of the scored routes by ascending weighted score: the
sorted list is a sorted permutation of the scored list whose tied blocks
(same weighted score) appear exactly in insertion order; no
`pareto_rank` tie-break is applied. -/
theorem C7_sorted_truncated (cache : ConstraintCache) (g : TransportGraph)
    (req : OptimizeRequest) (o d : ℕ)
    (ho : g.get_node_index req.origin_code = some o)
    (hd : g.get_node_index req.destination_code = some d) :
    ((optimize cache g req).routes =
      (finalSorted cache g req o d).take req.max_routes) ∧
    ((optimize cache g req).routes.length ≤ req.max_routes) ∧
    List.Sorted routeLE (finalSorted cache g req o d) ∧
    ((finalSorted cache g req o d).Perm (scoredRoutes cache g req o d)) ∧
    (∀ v : ℚ,
      (finalSorted cache g req o d).filter
          (fun r => decide (r.weighted_score = v)) =
        (scoredRoutes cache g req o d).filter
          (fun r => decide (r.weighted_score = v))) := by
  have heq : (optimize cache g req).routes =
      (finalSorted cache g req o d).take req.max_routes := by
    unfold optimize
    rw [ho, hd]
  refine ⟨heq, ?_, ?_, ?_, ?_⟩
  · rw [heq, List.length_take]
    exact min_le_left _ _
  · exact List.sorted_insertionSort routeLE _
  · exact List.perm_insertionSort routeLE _
  · intro v
    have hpair : ((scoredRoutes cache g req o d).filter
        (fun r => decide (r.weighted_score = v))).Pairwise routeLE := by
      apply List.pairwise_of_forall_mem_list
      intro a ha b hb
      have hav : a.weighted_score = v := by
        have := List.of_mem_filter ha; simpa using this
      have hbv : b.weighted_score = v := by
        have := List.of_mem_filter hb; simpa using this
      show a.weighted_score ≤ b.weighted_score
      rw [hav, hbv]
    have hsub : List.Sublist
        ((scoredRoutes cache g req o d).filter
          (fun r => decide (r.weighted_score = v)))
        (finalSorted cache g req o d) :=
      List.sublist_insertionSort hpair (List.filter_sublist _)
    have hsub2 : List.Sublist
        ((scoredRoutes cache g req o d).filter
          (fun r => decide (r.weighted_score = v)))
        ((finalSorted cache g req o d).filter
          (fun r => decide (r.weighted_score = v))) := by
      have h1 := hsub.filter (fun r => decide (r.weighted_score = v))
      simpa using h1
    have hlen : ((finalSorted cache g req o d).filter
        (fun r => decide (r.weighted_score = v))).length =
        ((scoredRoutes cache g req o d).filter
          (fun r => decide (r.weighted_score = v))).length :=
      ((List.perm_insertionSort routeLE _).filter _).length_eq
    exact (hsub2.eq_of_length hlen.symm).symm

/-- Witness for the amended C7: the tied block at score 0 of the sorted
list on the zero-weights example equals the scored list's tied block. -/
theorem C7_sorted_truncated_witness :
    (finalSorted emptyCache exGraph3 reqZeroW 0 1).filter
        (fun r => decide (r.weighted_score = 0)) =
      (scoredRoutes emptyCache exGraph3 reqZeroW 0 1).filter
        (fun r => decide (r.weighted_score = 0)) := by
  exact (C7_sorted_truncated emptyCache exGraph3 reqZeroW 0 1
    (by decide) (by decide)).2.2.2.2 0

/-- C7 counterexample: with all objective weights zero, three returned
routes tie at weighted score 0 but appear in insertion order [rank 1,
rank 2, rank 1]; the tie is not broken by `pareto_rank` as claimed. -/
theorem C7_counterexample :
    (optimize emptyCache exGraph3 reqZeroW).routes.length = 3 ∧
    ((optimize emptyCache exGraph3 reqZeroW).routes.getD 1
        CandidateRoute.new).weighted_score =
      ((optimize emptyCache exGraph3 reqZeroW).routes.getD 2
        CandidateRoute.new).weighted_score ∧
    ((optimize emptyCache exGraph3 reqZeroW).routes.getD 2
        CandidateRoute.new).pareto_rank <
      ((optimize emptyCache exGraph3 reqZeroW).routes.getD 1
        CandidateRoute.new).pareto_rank := by
  decide

/-- The dominance relation is irreflexive. -/
theorem dominates_irrefl (r : CandidateRoute) : dominates r r = false := by
  simp [dominates]

/-- The dominance relation is transitive. -/
theorem dominates_trans {a b c : CandidateRoute}
    (hab : dominates a b = true) (hbc : dominates b c = true) :
    dominates a c = true := by
  unfold dominates at hab hbc ⊢
  obtain ⟨hab4, hs1⟩ := Bool.and_eq_true_iff.mp hab
  obtain ⟨hab3, hl1⟩ := Bool.and_eq_true_iff.mp hab4
  obtain ⟨hab2, hk1⟩ := Bool.and_eq_true_iff.mp hab3
  obtain ⟨hc1, ht1⟩ := Bool.and_eq_true_iff.mp hab2
  obtain ⟨hbc4, hs2⟩ := Bool.and_eq_true_iff.mp hbc
  obtain ⟨hbc3, hl2⟩ := Bool.and_eq_true_iff.mp hbc4
  obtain ⟨hbc2, hk2⟩ := Bool.and_eq_true_iff.mp hbc3
  obtain ⟨hc2, ht2⟩ := Bool.and_eq_true_iff.mp hbc2
  refine Bool.and_eq_true_iff.mpr ⟨Bool.and_eq_true_iff.mpr ⟨Bool.and_eq_true_iff.mpr
    ⟨Bool.and_eq_true_iff.mpr ⟨?_, ?_⟩, ?_⟩, ?_⟩, ?_⟩
  · exact decide_eq_true (le_trans (of_decide_eq_true hc1) (of_decide_eq_true hc2))
  · exact decide_eq_true (le_trans (of_decide_eq_true ht1) (of_decide_eq_true ht2))
  · exact decide_eq_true (le_trans (of_decide_eq_true hk1) (of_decide_eq_true hk2))
  · exact decide_eq_true (le_trans (of_decide_eq_true hl2) (of_decide_eq_true hl1))
  · rcases Bool.or_eq_true_iff.mp hs1 with h123 | h4
    · rcases Bool.or_eq_true_iff.mp h123 with h12 | h3
      · rcases Bool.or_eq_true_iff.mp h12 with h1 | h2
        · exact Bool.or_eq_true_iff.mpr (Or.inl (Bool.or_eq_true_iff.mpr (Or.inl
            (Bool.or_eq_true_iff.mpr (Or.inl (decide_eq_true
              (lt_of_lt_of_le (of_decide_eq_true h1) (of_decide_eq_true hc2))))))))
        · exact Bool.or_eq_true_iff.mpr (Or.inl (Bool.or_eq_true_iff.mpr (Or.inl
            (Bool.or_eq_true_iff.mpr (Or.inr (decide_eq_true
              (lt_of_lt_of_le (of_decide_eq_true h2) (of_decide_eq_true ht2))))))))
      · exact Bool.or_eq_true_iff.mpr (Or.inl (Bool.or_eq_true_iff.mpr (Or.inr
          (decide_eq_true
            (lt_of_lt_of_le (of_decide_eq_true h3) (of_decide_eq_true hk2))))))
    · exact Bool.or_eq_true_iff.mpr (Or.inr (decide_eq_true
        (lt_of_le_of_lt (of_decide_eq_true hl2) (of_decide_eq_true h4))))

/-- The dominance relation is asymmetric. -/
theorem dominates_asymm {a b : CandidateRoute}
    (hab : dominates a b = true) (hba : dominates b a = true) : False := by
  have h := dominates_trans hab hba
  rw [dominates_irrefl] at h
  exact Bool.false_ne_true h

/-- Every nonempty index set has a member no other member of the set
dominates: dominance is a strict partial order, so finite nonempty sets
have maximal elements. -/
theorem exists_maximal_index (routes : List CandidateRoute) :
    ∀ (S : List ℕ), S ≠ [] → ∃ j ∈ S, ∀ i ∈ S,
      ¬(i ≠ j ∧ dominates (routes.getD i CandidateRoute.new)
          (routes.getD j CandidateRoute.new) = true) := by
  intro S
  induction S with
  | nil => intro h; exact absurd rfl h
  | cons a rest ih =>
    intro _
    by_cases hrest : rest = []
    · subst hrest
      refine ⟨a, List.mem_singleton_self a, ?_⟩
      intro i hi
      rw [List.mem_singleton] at hi
      subst hi
      rintro ⟨hne, _⟩
      exact hne rfl
    · obtain ⟨j, hj, hmax⟩ := ih hrest
      by_cases hadom : a ≠ j ∧ dominates (routes.getD a CandidateRoute.new)
          (routes.getD j CandidateRoute.new) = true
      · refine ⟨a, List.mem_cons_self a rest, ?_⟩
        intro i hi
        rintro ⟨hne, hdom⟩
        rcases List.mem_cons.mp hi with rfl | hi'
        · exact hne rfl
        · by_cases hij : i = j
          · subst hij
            exact dominates_asymm hdom hadom.2
          · exact hmax i hi' ⟨hij, dominates_trans hdom hadom.2⟩
      · refine ⟨j, List.mem_cons_of_mem a hj, ?_⟩
        intro i hi
        rcases List.mem_cons.mp hi with rfl | hi'
        · exact fun h => hadom h
        · exact hmax i hi'

/-- A nonempty remaining set always contains an index of dominated count
zero. -/
theorem exists_zero_domCount (routes : List CandidateRoute) (S : List ℕ)
    (h : S ≠ []) : ∃ j ∈ S, domCount routes S j = 0 := by
  obtain ⟨j, hj, hmax⟩ := exists_maximal_index routes S h
  refine ⟨j, hj, ?_⟩
  unfold domCount
  rw [List.length_eq_zero]
  rw [List.filter_eq_nil_iff]
  intro i hi
  simp only [Bool.and_eq_true, decide_eq_true_eq]
  intro hcontra
  exact hmax i hi hcontra

/-- One-step equation of `ndsLoop` on positive fuel. -/
theorem ndsLoop_succ (routes : List CandidateRoute) (fuel : ℕ)
    (st : NdsState) (rank : ℕ) :
    ndsLoop routes (fuel + 1) st rank =
      if st.remaining.isEmpty then (st.ranks, st.opt)
      else if (st.remaining.filter (fun i => st.counts i == 0)).isEmpty then
        (fun j => if j ∈ st.remaining then rank else st.ranks j, st.opt)
      else ndsLoop routes fuel
        ((st.remaining.filter (fun i => st.counts i == 0)).foldl
          (removeOne routes rank) st) (rank + 1) := rfl

/-- One-step equation of `ndsLoopNF` on positive fuel. -/
theorem ndsLoopNF_succ (routes : List CandidateRoute) (fuel : ℕ)
    (st : NdsState) (rank : ℕ) :
    ndsLoopNF routes (fuel + 1) st rank =
      if st.remaining.isEmpty then (st.ranks, st.opt)
      else if (st.remaining.filter (fun i => st.counts i == 0)).isEmpty then
        (st.ranks, st.opt)
      else ndsLoopNF routes fuel
        ((st.remaining.filter (fun i => st.counts i == 0)).foldl
          (removeOne routes rank) st) (rank + 1) := rfl

/-- Effect of processing a whole frontier with `removeOne`: the frontier
is removed from `remaining`, each surviving index's count drops by the
number of frontier members dominating it, and the frontier members all
receive the current rank and optimal flag. -/
theorem foldl_removeOne_spec (routes : List CandidateRoute) (rank : ℕ) :
    ∀ (fr : List ℕ) (st : NdsState), fr.Nodup → (∀ i ∈ fr, i ∈ st.remaining) →
      st.remaining.Nodup →
      ((fr.foldl (removeOne routes rank) st).remaining =
        st.remaining.filter (fun x => decide (x ∉ fr))) ∧
      (∀ j, j ∈ st.remaining → j ∉ fr →
        (fr.foldl (removeOne routes rank) st).counts j = st.counts j -
          (fr.filter (fun i => dominates (routes.getD i CandidateRoute.new)
            (routes.getD j CandidateRoute.new))).length) ∧
      (∀ x, (fr.foldl (removeOne routes rank) st).ranks x =
        if x ∈ fr then rank else st.ranks x) ∧
      (∀ x, (fr.foldl (removeOne routes rank) st).opt x =
        if x ∈ fr then decide (rank = 1) else st.opt x) := by
  intro fr
  induction fr with
  | nil =>
    intro st _ _ _
    refine ⟨?_, ?_, ?_, ?_⟩
    · simp
    · intro j _ _; simp
    · intro x; simp
    · intro x; simp
  | cons i fr' ih =>
    intro st hnd hsub hrnd
    have hind' : fr'.Nodup := (List.nodup_cons.mp hnd).2
    have hinotin : i ∉ fr' := (List.nodup_cons.mp hnd).1
    have hsub' : ∀ x ∈ fr', x ∈ (removeOne routes rank st i).remaining := by
      intro x hx
      have hxne : x ≠ i := by
        intro hxi
        rw [hxi] at hx
        exact hinotin hx
      show x ∈ st.remaining.erase i
      rw [List.mem_erase_of_ne hxne]
      exact hsub x (List.mem_cons_of_mem i hx)
    have hrnd' : (removeOne routes rank st i).remaining.Nodup :=
      hrnd.erase i
    obtain ⟨hrem, hcounts, hranks, hopt⟩ :=
      ih (removeOne routes rank st i) hind' hsub' hrnd'
    have hfold : (i :: fr').foldl (removeOne routes rank) st =
        fr'.foldl (removeOne routes rank) (removeOne routes rank st i) := rfl
    refine ⟨?_, ?_, ?_, ?_⟩
    · rw [hfold, hrem]
      show (st.remaining.erase i).filter _ = _
      rw [hrnd.erase_eq_filter i, List.filter_filter]
      apply List.filter_congr
      intro x _
      simp only [Bool.and_eq_true, decide_eq_true_eq, List.mem_cons]
      by_cases hx1 : x ∈ fr' <;> by_cases hx2 : x = i <;>
        simp [hx1, hx2]
    · intro j hj hjfr
      have hjne : j ≠ i := fun h => hjfr (h ▸ List.mem_cons_self i fr')
      have hjfr' : j ∉ fr' := fun h => hjfr (List.mem_cons_of_mem i h)
      have hjrem1 : j ∈ (removeOne routes rank st i).remaining := by
        show j ∈ st.remaining.erase i
        rw [List.mem_erase_of_ne hjne]
        exact hj
      rw [hfold, hcounts j hjrem1 hjfr']
      have hc1 : (removeOne routes rank st i).counts j =
          if j ∈ st.remaining.erase i ∧
              dominates (routes.getD i CandidateRoute.new)
                (routes.getD j CandidateRoute.new) = true then
            st.counts j - 1
          else st.counts j := rfl
      by_cases hdom : dominates (routes.getD i CandidateRoute.new)
          (routes.getD j CandidateRoute.new) = true
      · rw [hc1, if_pos ⟨by rw [List.mem_erase_of_ne hjne]; exact hj, hdom⟩]
        simp only [List.filter_cons, hdom, if_true, List.length_cons]
        omega
      · rw [hc1, if_neg (fun hcon => hdom hcon.2)]
        rw [Bool.not_eq_true] at hdom
        simp only [List.filter_cons, hdom, Bool.false_eq_true, if_false]
    · intro x
      rw [hfold, hranks x]
      have hr1 : (removeOne routes rank st i).ranks x =
          if x = i then rank else st.ranks x := rfl
      rw [hr1]
      by_cases hx2 : x = i
      · subst hx2
        simp [hinotin]
      · simp [hx2, List.mem_cons]
    · intro x
      rw [hfold, hopt x]
      have ho1 : (removeOne routes rank st i).opt x =
          if x = i then decide (rank = 1) else st.opt x := rfl
      rw [ho1]
      by_cases hx2 : x = i
      · subst hx2
        simp [hinotin]
      · simp [hx2, List.mem_cons]

/-- Splitting a dominated count along a predicate: the dominators of `j`
in `rem` are those in the `q`-part plus those in the rest. -/
theorem domCount_split (routes : List CandidateRoute) (rem : List ℕ)
    (q : ℕ → Bool) (j : ℕ) (hjq : ∀ i ∈ rem.filter q, i ≠ j) :
    domCount routes rem j =
      domCount routes (rem.filter (fun x => !(q x))) j +
        ((rem.filter q).filter (fun i =>
          dominates (routes.getD i CandidateRoute.new)
            (routes.getD j CandidateRoute.new))).length := by
  unfold domCount
  have hcongr : (rem.filter q).filter (fun i =>
      decide (i ≠ j) && dominates (routes.getD i CandidateRoute.new)
        (routes.getD j CandidateRoute.new)) =
      (rem.filter q).filter (fun i =>
        dominates (routes.getD i CandidateRoute.new)
          (routes.getD j CandidateRoute.new)) := by
    apply List.filter_congr
    intro x hx
    have hne := hjq x hx
    simp [hne]
  rw [← hcongr]
  have hperm := List.filter_append_perm q rem
  have h1 := (hperm.filter (fun i =>
    decide (i ≠ j) && dominates (routes.getD i CandidateRoute.new)
      (routes.getD j CandidateRoute.new))).length_eq
  rw [List.filter_append, List.length_append] at h1
  omega

/-- Master invariant of the rank-assignment loop: starting from a
duplicate-free remaining set of indices below `n` whose counts equal the
remaining-dominator counts, with enough fuel, the loop assigns every
index a rank of at least 1, ranks respect strict dominance, the optimal
flag of every index equals (rank = 1), and the fallback branch is never
taken (the loop agrees with its fallback-free variant). -/
theorem ndsLoop_spec (routes : List CandidateRoute) (n : ℕ) :
    ∀ (fuel : ℕ) (st : NdsState) (rank : ℕ),
      st.remaining.Nodup →
      (∀ j ∈ st.remaining, j < n) →
      (∀ j ∈ st.remaining, st.counts j = domCount routes st.remaining j) →
      st.remaining.length < fuel →
      1 ≤ rank →
      (∀ x, x < n → x ∉ st.remaining → 1 ≤ st.ranks x ∧ st.ranks x < rank) →
      (∀ a b, a < n → b < n → a ∉ st.remaining → b ∉ st.remaining →
        dominates (routes.getD a CandidateRoute.new)
          (routes.getD b CandidateRoute.new) = true →
        st.ranks a < st.ranks b) →
      (∀ a b, a ∈ st.remaining → b < n → b ∉ st.remaining →
        dominates (routes.getD a CandidateRoute.new)
          (routes.getD b CandidateRoute.new) = true → False) →
      (∀ x, x < n → x ∉ st.remaining → st.opt x = decide (st.ranks x = 1)) →
      (∀ x, x < n → 1 ≤ (ndsLoop routes fuel st rank).1 x) ∧
      (∀ a b, a < n → b < n →
        dominates (routes.getD a CandidateRoute.new)
          (routes.getD b CandidateRoute.new) = true →
        (ndsLoop routes fuel st rank).1 a < (ndsLoop routes fuel st rank).1 b) ∧
      (∀ x, x < n → (ndsLoop routes fuel st rank).2 x =
        decide ((ndsLoop routes fuel st rank).1 x = 1)) ∧
      ndsLoop routes fuel st rank = ndsLoopNF routes fuel st rank := by
  intro fuel
  induction fuel with
  | zero =>
    intro st rank _ _ _ hlen _ _ _ _ _
    exact absurd hlen (Nat.not_lt_zero _)
  | succ fuel ih =>
    intro st rank hnd hlt hcinv hlen hrank hI4 hI5 hI6 hI7
    by_cases hemp : st.remaining.isEmpty
    · have hrem0 : st.remaining = [] := List.isEmpty_iff.mp hemp
      rw [ndsLoop_succ, ndsLoopNF_succ, if_pos hemp, if_pos hemp]
      refine ⟨?_, ?_, ?_, rfl⟩
      · intro x hx
        exact (hI4 x hx (by rw [hrem0]; exact List.not_mem_nil x)).1
      · intro a b ha hb hdom
        exact hI5 a b ha hb (by rw [hrem0]; exact List.not_mem_nil a)
          (by rw [hrem0]; exact List.not_mem_nil b) hdom
      · intro x hx
        exact hI7 x hx (by rw [hrem0]; exact List.not_mem_nil x)
    · have hremne : st.remaining ≠ [] := by
        intro h
        rw [List.isEmpty_iff] at hemp
        exact hemp h
      have hfrne : ¬((st.remaining.filter
          (fun i => st.counts i == 0)).isEmpty = true) := by
        obtain ⟨j, hjmem, hjdc⟩ := exists_zero_domCount routes st.remaining hremne
        have hcj : st.counts j = 0 := by rw [hcinv j hjmem, hjdc]
        have hjfr : j ∈ st.remaining.filter (fun i => st.counts i == 0) :=
          List.mem_filter.mpr ⟨hjmem, by simp [hcj]⟩
        intro hie
        rw [List.isEmpty_iff] at hie
        rw [hie] at hjfr
        exact List.not_mem_nil j hjfr
      rw [ndsLoop_succ, ndsLoopNF_succ, if_neg hemp, if_neg hemp,
        if_neg hfrne, if_neg hfrne]
      have hfrsub : ∀ i ∈ st.remaining.filter (fun i => st.counts i == 0),
          i ∈ st.remaining := fun i hi => (List.mem_filter.mp hi).1
      have hfrnd : (st.remaining.filter (fun i => st.counts i == 0)).Nodup :=
        hnd.filter _
      have hc0 : ∀ i ∈ st.remaining.filter (fun i => st.counts i == 0),
          st.counts i = 0 := by
        intro i hi
        have h := (List.mem_filter.mp hi).2
        simpa using h
      have hnotdom : ∀ i ∈ st.remaining.filter (fun i => st.counts i == 0),
          ∀ a ∈ st.remaining, a ≠ i →
          dominates (routes.getD a CandidateRoute.new)
            (routes.getD i CandidateRoute.new) = true → False := by
        intro i hi a ha hne hdom
        have h0 : domCount routes st.remaining i = 0 := by
          rw [← hcinv i (hfrsub i hi)]
          exact hc0 i hi
        unfold domCount at h0
        rw [List.length_eq_zero, List.filter_eq_nil_iff] at h0
        exact h0 a ha (Bool.and_eq_true_iff.mpr ⟨decide_eq_true hne, hdom⟩)
      obtain ⟨hrem', hcounts', hranks', hopt'⟩ :=
        foldl_removeOne_spec routes rank
          (st.remaining.filter (fun i => st.counts i == 0)) st hfrnd hfrsub hnd
      have hmem' : ∀ x,
          x ∈ ((st.remaining.filter (fun i => st.counts i == 0)).foldl
            (removeOne routes rank) st).remaining ↔
          (x ∈ st.remaining ∧
            x ∉ st.remaining.filter (fun i => st.counts i == 0)) := by
        intro x
        rw [hrem', List.mem_filter]
        simp only [decide_eq_true_eq]
      have hnd' : ((st.remaining.filter (fun i => st.counts i == 0)).foldl
          (removeOne routes rank) st).remaining.Nodup := by
        rw [hrem']
        exact hnd.filter _
      have hlt' : ∀ j ∈ ((st.remaining.filter (fun i => st.counts i == 0)).foldl
          (removeOne routes rank) st).remaining, j < n :=
        fun j hj => hlt j ((hmem' j).mp hj).1
      have hcinv' : ∀ j ∈ ((st.remaining.filter (fun i => st.counts i == 0)).foldl
          (removeOne routes rank) st).remaining,
          ((st.remaining.filter (fun i => st.counts i == 0)).foldl
            (removeOne routes rank) st).counts j =
          domCount routes
            ((st.remaining.filter (fun i => st.counts i == 0)).foldl
              (removeOne routes rank) st).remaining j := by
        intro j hj
        obtain ⟨hjrem, hjfr⟩ := (hmem' j).mp hj
        rw [hcounts' j hjrem hjfr, hcinv j hjrem]
        have hjq : ∀ i ∈ st.remaining.filter (fun i => st.counts i == 0),
            i ≠ j := by
          intro i hi hij
          rw [hij] at hi
          exact hjfr hi
        have hsplit := domCount_split routes st.remaining
          (fun i => st.counts i == 0) j hjq
        have hreq : st.remaining.filter (fun x => !(st.counts x == 0)) =
            ((st.remaining.filter (fun i => st.counts i == 0)).foldl
              (removeOne routes rank) st).remaining := by
          rw [hrem']
          apply List.filter_congr
          intro x hx
          by_cases hxc : st.counts x = 0
          · have hxin : x ∈ st.remaining.filter (fun i => st.counts i == 0) :=
              List.mem_filter.mpr ⟨hx, by simp [hxc]⟩
            simp [hxc, hxin]
          · have hxout : x ∉ st.remaining.filter (fun i => st.counts i == 0) := by
              intro hin
              have h := (List.mem_filter.mp hin).2
              exact hxc (by simpa using h)
            simp [hxc, hxout]
        rw [hreq] at hsplit
        omega
      have hlen' : ((st.remaining.filter (fun i => st.counts i == 0)).foldl
          (removeOne routes rank) st).remaining.length < fuel := by
        have hle : ((st.remaining.filter (fun i => st.counts i == 0)).foldl
            (removeOne routes rank) st).remaining.length ≤
            st.remaining.length := by
          rw [hrem']
          exact List.length_filter_le _ _
        have hne2 : ((st.remaining.filter (fun i => st.counts i == 0)).foldl
            (removeOne routes rank) st).remaining.length ≠
            st.remaining.length := by
          rw [hrem']
          intro heq
          have heql : st.remaining.filter
              (fun x => decide (x ∉ st.remaining.filter
                (fun i => st.counts i == 0))) = st.remaining :=
            (List.filter_sublist _).eq_of_length heq
          obtain ⟨j, hjfr⟩ : ∃ j, j ∈ st.remaining.filter
              (fun i => st.counts i == 0) := by
            cases hfq : st.remaining.filter (fun i => st.counts i == 0) with
            | nil =>
              rw [hfq] at hfrne
              exact (hfrne rfl).elim
            | cons a l => exact ⟨a, hfq ▸ List.mem_cons_self a l⟩
          have hall := List.filter_eq_self.mp heql j (hfrsub j hjfr)
          rw [decide_eq_true_eq] at hall
          exact hall hjfr
        omega
      have hI4' : ∀ x, x < n →
          x ∉ ((st.remaining.filter (fun i => st.counts i == 0)).foldl
            (removeOne routes rank) st).remaining →
          1 ≤ ((st.remaining.filter (fun i => st.counts i == 0)).foldl
            (removeOne routes rank) st).ranks x ∧
          ((st.remaining.filter (fun i => st.counts i == 0)).foldl
            (removeOne routes rank) st).ranks x < rank + 1 := by
        intro x hx hxnot
        rw [hranks' x]
        by_cases hxfr : x ∈ st.remaining.filter (fun i => st.counts i == 0)
        · rw [if_pos hxfr]
          exact ⟨hrank, Nat.lt_succ_self rank⟩
        · rw [if_neg hxfr]
          have hxrem : x ∉ st.remaining :=
            fun hxr => hxnot ((hmem' x).mpr ⟨hxr, hxfr⟩)
          obtain ⟨h1, h2⟩ := hI4 x hx hxrem
          exact ⟨h1, Nat.lt_succ_of_lt h2⟩
      have hI5' : ∀ a b, a < n → b < n →
          a ∉ ((st.remaining.filter (fun i => st.counts i == 0)).foldl
            (removeOne routes rank) st).remaining →
          b ∉ ((st.remaining.filter (fun i => st.counts i == 0)).foldl
            (removeOne routes rank) st).remaining →
          dominates (routes.getD a CandidateRoute.new)
            (routes.getD b CandidateRoute.new) = true →
          ((st.remaining.filter (fun i => st.counts i == 0)).foldl
            (removeOne routes rank) st).ranks a <
          ((st.remaining.filter (fun i => st.counts i == 0)).foldl
            (removeOne routes rank) st).ranks b := by
        intro a b ha hb hanot hbnot hdom
        rw [hranks' a, hranks' b]
        by_cases hafr : a ∈ st.remaining.filter (fun i => st.counts i == 0) <;>
          by_cases hbfr : b ∈ st.remaining.filter (fun i => st.counts i == 0)
        · exfalso
          have hane : a ≠ b := by
            intro h
            rw [h, dominates_irrefl] at hdom
            exact Bool.false_ne_true hdom
          exact hnotdom b hbfr a (hfrsub a hafr) hane hdom
        · exfalso
          have hbrem : b ∉ st.remaining :=
            fun hbr => hbnot ((hmem' b).mpr ⟨hbr, hbfr⟩)
          exact hI6 a b (hfrsub a hafr) hb hbrem hdom
        · rw [if_neg hafr, if_pos hbfr]
          have harem : a ∉ st.remaining :=
            fun har => hanot ((hmem' a).mpr ⟨har, hafr⟩)
          exact (hI4 a ha harem).2
        · rw [if_neg hafr, if_neg hbfr]
          have harem : a ∉ st.remaining :=
            fun har => hanot ((hmem' a).mpr ⟨har, hafr⟩)
          have hbrem : b ∉ st.remaining :=
            fun hbr => hbnot ((hmem' b).mpr ⟨hbr, hbfr⟩)
          exact hI5 a b ha hb harem hbrem hdom
      have hI6' : ∀ a b,
          a ∈ ((st.remaining.filter (fun i => st.counts i == 0)).foldl
            (removeOne routes rank) st).remaining → b < n →
          b ∉ ((st.remaining.filter (fun i => st.counts i == 0)).foldl
            (removeOne routes rank) st).remaining →
          dominates (routes.getD a CandidateRoute.new)
            (routes.getD b CandidateRoute.new) = true → False := by
        intro a b ha hb hbnot hdom
        obtain ⟨harem, hafr⟩ := (hmem' a).mp ha
        by_cases hbfr : b ∈ st.remaining.filter (fun i => st.counts i == 0)
        · have hane : a ≠ b := fun h => hafr (h ▸ hbfr)
          exact hnotdom b hbfr a harem hane hdom
        · have hbrem : b ∉ st.remaining :=
            fun hbr => hbnot ((hmem' b).mpr ⟨hbr, hbfr⟩)
          exact hI6 a b harem hb hbrem hdom
      have hI7' : ∀ x, x < n →
          x ∉ ((st.remaining.filter (fun i => st.counts i == 0)).foldl
            (removeOne routes rank) st).remaining →
          ((st.remaining.filter (fun i => st.counts i == 0)).foldl
            (removeOne routes rank) st).opt x =
          decide (((st.remaining.filter (fun i => st.counts i == 0)).foldl
            (removeOne routes rank) st).ranks x = 1) := by
        intro x hx hxnot
        rw [hopt' x, hranks' x]
        by_cases hxfr : x ∈ st.remaining.filter (fun i => st.counts i == 0)
        · rw [if_pos hxfr, if_pos hxfr]
        · rw [if_neg hxfr, if_neg hxfr]
          have hxrem : x ∉ st.remaining :=
            fun hxr => hxnot ((hmem' x).mpr ⟨hxr, hxfr⟩)
          exact hI7 x hx hxrem
      exact ih ((st.remaining.filter (fun i => st.counts i == 0)).foldl
          (removeOne routes rank) st) (rank + 1)
        hnd' hlt' hcinv' hlen' (le_trans hrank (Nat.le_succ rank))
        hI4' hI5' hI6' hI7'

/-- The instantiated loop conclusions for `calculate_pareto_ranks`'s
initial state: every index below `n` gets a rank of at least 1, ranks
respect dominance, optimal flags equal (rank = 1), and the loop agrees
with its fallback-free variant. -/
theorem ndsLoop_final (routes : List CandidateRoute) :
    (∀ x, x < routes.length →
      1 ≤ (ndsLoop routes (routes.length + 1)
        { remaining := List.range routes.length, counts := initCounts routes
          ranks := fun _ => 0
          opt := fun i => (routes.getD i CandidateRoute.new).pareto_optimal }
        1).1 x) ∧
    (∀ a b, a < routes.length → b < routes.length →
      dominates (routes.getD a CandidateRoute.new)
        (routes.getD b CandidateRoute.new) = true →
      (ndsLoop routes (routes.length + 1)
        { remaining := List.range routes.length, counts := initCounts routes
          ranks := fun _ => 0
          opt := fun i => (routes.getD i CandidateRoute.new).pareto_optimal }
        1).1 a <
      (ndsLoop routes (routes.length + 1)
        { remaining := List.range routes.length, counts := initCounts routes
          ranks := fun _ => 0
          opt := fun i => (routes.getD i CandidateRoute.new).pareto_optimal }
        1).1 b) ∧
    (∀ x, x < routes.length →
      (ndsLoop routes (routes.length + 1)
        { remaining := List.range routes.length, counts := initCounts routes
          ranks := fun _ => 0
          opt := fun i => (routes.getD i CandidateRoute.new).pareto_optimal }
        1).2 x =
      decide ((ndsLoop routes (routes.length + 1)
        { remaining := List.range routes.length, counts := initCounts routes
          ranks := fun _ => 0
          opt := fun i => (routes.getD i CandidateRoute.new).pareto_optimal }
        1).1 x = 1)) ∧
    (ndsLoop routes (routes.length + 1)
      { remaining := List.range routes.length, counts := initCounts routes
        ranks := fun _ => 0
        opt := fun i => (routes.getD i CandidateRoute.new).pareto_optimal } 1 =
     ndsLoopNF routes (routes.length + 1)
      { remaining := List.range routes.length, counts := initCounts routes
        ranks := fun _ => 0
        opt := fun i => (routes.getD i CandidateRoute.new).pareto_optimal } 1) := by
  apply ndsLoop_spec routes routes.length (routes.length + 1) _ 1
  · exact List.nodup_range routes.length
  · intro j hj
    exact List.mem_range.mp hj
  · intro j _
    rfl
  · show (List.range routes.length).length < routes.length + 1
    rw [List.length_range]
    exact Nat.lt_succ_self _
  · exact le_refl 1
  · intro x hx hnot
    exact absurd (List.mem_range.mpr hx) hnot
  · intro a b ha _ hanot _ _
    exact absurd (List.mem_range.mpr ha) hanot
  · intro a b _ hb hbnot _
    exact absurd (List.mem_range.mpr hb) hbnot
  · intro x hx hnot
    exact absurd (List.mem_range.mpr hx) hnot

/-- Every ranked route has `pareto_rank ≥ 1`. -/
theorem paretoRanks_rank_pos (routes : List CandidateRoute) :
    ∀ r ∈ calculate_pareto_ranks routes, 1 ≤ r.pareto_rank := by
  intro r hr
  unfold calculate_pareto_ranks at hr
  simp only [List.mem_map, List.mem_range] at hr
  obtain ⟨i, hi, hr⟩ := hr
  have h := (ndsLoop_final routes).1 i hi
  rw [← hr]
  exact h

/-- Dominance strictly lowers `pareto_rank` in the ranked list. -/
theorem paretoRanks_dominance (routes : List CandidateRoute) :
    ∀ A ∈ calculate_pareto_ranks routes, ∀ B ∈ calculate_pareto_ranks routes,
      dominates A B = true → A.pareto_rank < B.pareto_rank := by
  intro A hA B hB hdom
  unfold calculate_pareto_ranks at hA hB
  simp only [List.mem_map, List.mem_range] at hA hB
  obtain ⟨i, hi, hA⟩ := hA
  obtain ⟨j, hj, hB⟩ := hB
  rw [← hA, ← hB] at hdom
  rw [← hA, ← hB]
  exact (ndsLoop_final routes).2.1 i j hi hj hdom

/-- The ranking loop never takes its fallback branch: the ranking
function agrees with the fallback-free variant. -/
theorem paretoRanks_eq_NF (routes : List CandidateRoute) :
    calculate_pareto_ranks routes = calculateParetoRanksNF routes := by
  unfold calculate_pareto_ranks calculateParetoRanksNF
  dsimp only
  rw [(ndsLoop_final routes).2.2.2]

/-- A ranked route is flagged `pareto_optimal` exactly when its rank
is 1. -/
theorem paretoRanks_opt_iff (routes : List CandidateRoute) :
    ∀ r ∈ calculate_pareto_ranks routes,
      (r.pareto_optimal = true ↔ r.pareto_rank = 1) := by
  intro r hr
  unfold calculate_pareto_ranks at hr
  simp only [List.mem_map, List.mem_range] at hr
  obtain ⟨i, hi, hr⟩ := hr
  have h := (ndsLoop_final routes).2.2.1 i hi
  rw [← hr]
  show (ndsLoop routes (routes.length + 1) _ 1).2 i = true ↔
    (ndsLoop routes (routes.length + 1) _ 1).1 i = 1
  rw [h]
  exact decide_eq_true_iff

/-- C9: the dominates relation is irreflexive and transitive (a strict
partial order), every non-empty remaining set contains a route of zero
remaining-dominator count, so the fallback branch of
`calculate_pareto_ranks` is unreachable (the function agrees with its
fallback-free variant), every assigned `pareto_rank` is at least 1, and
`pareto_optimal = true` exactly on rank-1 routes. -/
theorem C9_pareto_ranking_sound :
    (∀ r : CandidateRoute, dominates r r = false) ∧
    (∀ a b c : CandidateRoute, dominates a b = true → dominates b c = true →
      dominates a c = true) ∧
    (∀ routes : List CandidateRoute,
      calculate_pareto_ranks routes = calculateParetoRanksNF routes) ∧
    (∀ routes : List CandidateRoute, ∀ r ∈ calculate_pareto_ranks routes,
      1 ≤ r.pareto_rank) ∧
    (∀ routes : List CandidateRoute, ∀ r ∈ calculate_pareto_ranks routes,
      (r.pareto_optimal = true ↔ r.pareto_rank = 1)) :=
  ⟨dominates_irrefl, fun _ _ _ hab hbc => dominates_trans hab hbc,
   paretoRanks_eq_NF, paretoRanks_rank_pos, paretoRanks_opt_iff⟩

/-- Witness for C9 on concrete routes: transitivity applies on a
dominating chain, and the ranked two-route list has positive ranks with
the optimal flag matching rank 1. -/
theorem C9_pareto_ranking_sound_witness :
    dominates exRouteA exRouteC = true ∧
    1 ≤ ((calculate_pareto_ranks [exRouteA, exRouteB]).getD 1
      CandidateRoute.new).pareto_rank ∧
    (((calculate_pareto_ranks [exRouteA, exRouteB]).getD 0
        CandidateRoute.new).pareto_optimal = true ↔
      ((calculate_pareto_ranks [exRouteA, exRouteB]).getD 0
        CandidateRoute.new).pareto_rank = 1) := by
  refine ⟨?_, ?_, ?_⟩
  · exact C9_pareto_ranking_sound.2.1 exRouteA exRouteB exRouteC
      (by decide) (by decide)
  · exact C9_pareto_ranking_sound.2.2.2.1 [exRouteA, exRouteB] _ (by decide)
  · exact C9_pareto_ranking_sound.2.2.2.2 [exRouteA, exRouteB] _ (by decide)

/-- C5: for any two routes in the returned list, if A dominates B then
A's pareto rank is strictly smaller than B's. -/
theorem C5_dominating_route_ranks_lower (cache : ConstraintCache)
    (g : TransportGraph) (req : OptimizeRequest) :
    ∀ A ∈ (optimize cache g req).routes, ∀ B ∈ (optimize cache g req).routes,
      dominates A B = true → A.pareto_rank < B.pareto_rank := by
  intro A hA B hB hdom
  obtain ⟨o, d, ho, hd, x, hx, hAx⟩ := mem_optimize_scored hA
  obtain ⟨o', d', ho', hd', y, hy, hBy⟩ := mem_optimize_scored hB
  have ho2 : o' = o := by rw [ho] at ho'; exact (Option.some.inj ho').symm
  have hd2 : d' = d := by rw [hd] at hd'; exact (Option.some.inj hd').symm
  subst ho2 hd2
  rw [hAx, hBy] at hdom
  rw [hAx, hBy]
  exact paretoRanks_dominance _ x hx y hy hdom

/-- Witness for C5 on the three-parallel-edge example: the cheapest
returned route dominates the second and carries a strictly smaller rank. -/
theorem C5_dominating_route_ranks_lower_witness :
    ((optimize emptyCache exGraph3 reqZeroW).routes.getD 0
      CandidateRoute.new).pareto_rank <
    ((optimize emptyCache exGraph3 reqZeroW).routes.getD 1
      CandidateRoute.new).pareto_rank := by
  exact C5_dominating_route_ranks_lower emptyCache exGraph3 reqZeroW
    ((optimize emptyCache exGraph3 reqZeroW).routes.getD 0 CandidateRoute.new)
    (by decide)
    ((optimize emptyCache exGraph3 reqZeroW).routes.getD 1 CandidateRoute.new)
    (by decide) (by decide)

/-- A heap whose pop yields nothing is empty. -/
theorem popMin_none {h : List SearchState} (hp : popMin h = none) : h = [] := by
  cases h with
  | nil => rfl
  | cons s rest =>
    simp only [popMin] at hp
    cases ht : popMin rest with
    | none => rw [ht] at hp; exact absurd hp (by simp)
    | some pr =>
      rw [ht] at hp
      by_cases hc : s.cost ≤ pr.1.cost <;> simp [hc] at hp

/-- `popMin` removes one element: the heap is a permutation of the
popped state consed onto the rest, and the popped state's cost is
minimal among the rest. -/
theorem popMin_spec : ∀ (h : List SearchState) (s : SearchState)
    (rest : List SearchState), popMin h = some (s, rest) →
    h.Perm (s :: rest) ∧ ∀ x ∈ rest, s.cost ≤ x.cost := by
  intro h
  induction h with
  | nil => intro s rest hp; simp [popMin] at hp
  | cons a t ih =>
    intro s rest hp
    simp only [popMin] at hp
    cases ht : popMin t with
    | none =>
      rw [ht] at hp
      dsimp only at hp
      have ht0 : t = [] := popMin_none ht
      obtain ⟨rfl, rfl⟩ : a = s ∧ [] = rest := by
        have := Option.some.inj hp
        exact ⟨congrArg Prod.fst this, congrArg Prod.snd this⟩
      subst ht0
      exact ⟨List.Perm.refl _, fun x hx => absurd hx (List.not_mem_nil x)⟩
    | some pr =>
      obtain ⟨m, rest'⟩ := pr
      rw [ht] at hp
      dsimp only at hp
      obtain ⟨hperm, hmin⟩ := ih m rest' ht
      by_cases hc : a.cost ≤ m.cost
      · rw [if_pos hc] at hp
        obtain ⟨rfl, rfl⟩ : a = s ∧ t = rest := by
          have := Option.some.inj hp
          exact ⟨congrArg Prod.fst this, congrArg Prod.snd this⟩
        refine ⟨List.Perm.refl _, ?_⟩
        intro x hx
        rcases List.mem_cons.mp (hperm.mem_iff.mp hx) with rfl | hx'
        · exact hc
        · exact le_trans hc (hmin x hx')
      · rw [if_neg hc] at hp
        obtain ⟨rfl, rfl⟩ : m = s ∧ a :: rest' = rest := by
          have := Option.some.inj hp
          exact ⟨congrArg Prod.fst this, congrArg Prod.snd this⟩
        refine ⟨?_, ?_⟩
        · exact (hperm.cons a).trans (List.Perm.swap m a rest')
        · intro x hx
          rcases List.mem_cons.mp hx with rfl | hx'
          · exact le_of_lt (lt_of_not_le hc)
          · exact hmin x hx'

/-- An entry of `edgesFrom u` is an edge of the graph with source `u`. -/
theorem mem_edgesFrom {g : TransportGraph} {u t : ℕ} {e : TransportEdge}
    (h : (t, e) ∈ g.edgesFrom u) : (u, t, e) ∈ g.edges := by
  unfold TransportGraph.edgesFrom at h
  simp only [List.mem_map, List.mem_filter] at h
  obtain ⟨trip, ⟨htrip, hu⟩, heq⟩ := h
  obtain ⟨a, b, e'⟩ := trip
  simp only [decide_eq_true_eq] at hu
  obtain ⟨hb, he⟩ : b = t ∧ e' = e := by
    have h1 := congrArg Prod.fst heq
    have h2 := congrArg Prod.snd heq
    exact ⟨h1, h2⟩
  subst hu hb he
  exact htrip

/-- Appending an edge leaving the walk's endpoint extends a valid walk. -/
theorem validWalk_append {g : TransportGraph} :
    ∀ (p : List (ℕ × TransportEdge)) (u v t : ℕ) (e : TransportEdge),
      validWalk g u p v = true → (v, t, e) ∈ g.edges →
      validWalk g u (p ++ [(t, e)]) t = true := by
  intro p
  induction p with
  | nil =>
    intro u v t e hw hmem
    have huv : u = v := by simpa [validWalk] using hw
    subst huv
    simp [validWalk, hmem]
  | cons hd rest ih =>
    intro u v t e hw hmem
    obtain ⟨t0, e0⟩ := hd
    simp only [validWalk, List.cons_append, Bool.and_eq_true] at hw ⊢
    exact ⟨hw.1, ih t0 v t e hw.2 hmem⟩

/-- Path cost of an appended edge. -/
theorem pathCost_append (req : OptimizeRequest) (p : List (ℕ × TransportEdge))
    (t : ℕ) (e : TransportEdge) :
    pathCost req (p ++ [(t, e)]) =
      pathCost req p + e.calculate_cost req.weight_kg := by
  simp [pathCost]

/-- Characterization of each child pushed by the neighbor exploration: it
extends the parent's path by one graph edge leaving the parent's node,
and its cost adds that edge's cost. -/
theorem stepChildren_spec (g : TransportGraph) (req : OptimizeRequest)
    (state : SearchState) :
    ∀ c ∈ stepChildren g req state, ∃ t e,
      (state.node, t, e) ∈ g.edges ∧
      c.path = state.path ++ [(t, e)] ∧ c.node = t ∧
      c.cost = state.cost + e.calculate_cost req.weight_kg := by
  intro c hc
  unfold stepChildren at hc
  simp only [List.mem_filterMap] at hc
  obtain ⟨te, hte, hstep⟩ := hc
  obtain ⟨t, e⟩ := te
  simp only at hstep
  by_cases h1 : e.active = false
  · rw [if_pos h1] at hstep; exact absurd hstep (by simp)
  rw [if_neg h1] at hstep
  by_cases h2 : req.allowed_modes ≠ [] ∧ e.mode ∉ req.allowed_modes
  · rw [if_pos h2] at hstep; exact absurd hstep (by simp)
  rw [if_neg h2] at hstep
  by_cases h3 : e.carrier_code ∈ req.excluded_carriers
  · rw [if_pos h3] at hstep; exact absurd hstep (by simp)
  rw [if_neg h3] at hstep
  by_cases h4 : e.carrier_sanctioned = true
  · rw [if_pos h4] at hstep; exact absurd hstep (by simp)
  rw [if_neg h4] at hstep
  by_cases h5 : req.deliver_by < state.current_time +
      truncHours ((state.time_hours + e.transit_hours) +
        (match state.path.getLast? with
         | some le => le.2.mode.mode_transfer_hours e.mode
         | none => 0))
  · rw [if_pos h5] at hstep; exact absurd hstep (by simp)
  · rw [if_neg h5] at hstep
    have hc' := Option.some.inj hstep
    refine ⟨t, e, mem_edgesFrom hte, ?_, ?_, ?_⟩
    · rw [← hc']
    · rw [← hc']
    · rw [← hc']

/-- One-step equation of `searchLoop` on positive fuel. -/
theorem searchLoop_succ (g : TransportGraph) (req : OptimizeRequest)
    (destination k fuel : ℕ) (heap : List SearchState) (counts : ℕ → ℕ)
    (paths : List (List (ℕ × TransportEdge))) :
    searchLoop g req destination k (fuel + 1) heap counts paths =
      match popMin heap with
      | none => paths
      | some (state, heap') =>
        if k < counts state.node + 1 then
          searchLoop g req destination k fuel heap'
            (fun n => if n = state.node then counts state.node + 1 else counts n)
            paths
        else if state.node = destination ∧ state.path ≠ [] then
          if k ≤ (paths ++ [state.path]).length then paths ++ [state.path]
          else searchLoop g req destination k fuel heap'
            (fun n => if n = state.node then counts state.node + 1 else counts n)
            (paths ++ [state.path])
        else if req.max_segments ≤ state.path.length then
          searchLoop g req destination k fuel heap'
            (fun n => if n = state.node then counts state.node + 1 else counts n)
            paths
        else
          searchLoop g req destination k fuel
            (heap' ++ stepChildren g req state)
            (fun n => if n = state.node then counts state.node + 1 else counts n)
            paths := rfl

/-- Master invariant of the k-shortest-path loop: with non-negative edge
costs, every heap state carrying a valid walk of recorded cost and the
emitted paths sorted below the heap's cost floor, the loop returns at
most k paths, all valid non-empty walks from the origin to the
destination within the segment bound, in non-decreasing cost order. -/
theorem searchLoop_spec (g : TransportGraph) (req : OptimizeRequest)
    (origin destination k : ℕ)
    (hc : ∀ ed ∈ g.edges, 0 ≤ ed.2.2.calculate_cost req.weight_kg) :
    ∀ (fuel : ℕ) (heap : List SearchState) (counts : ℕ → ℕ)
      (paths : List (List (ℕ × TransportEdge))) (b : ℚ),
      (∀ s ∈ heap, validWalk g origin s.path s.node = true ∧
        s.cost = pathCost req s.path ∧ s.path.length ≤ req.max_segments ∧
        b ≤ s.cost) →
      (∀ p ∈ paths, validWalk g origin p destination = true ∧ p ≠ [] ∧
        p.length ≤ req.max_segments ∧ pathCost req p ≤ b) →
      (paths.map (pathCost req)).Sorted (· ≤ ·) →
      paths.length ≤ k →
      (paths.length = k → k = 0) →
      (searchLoop g req destination k fuel heap counts paths).length ≤ k ∧
      (∀ p ∈ searchLoop g req destination k fuel heap counts paths,
        validWalk g origin p destination = true ∧ p ≠ [] ∧
        p.length ≤ req.max_segments) ∧
      ((searchLoop g req destination k fuel heap counts paths).map
        (pathCost req)).Sorted (· ≤ ·) := by
  intro fuel
  induction fuel with
  | zero =>
    intro heap counts paths b _ hpaths hsort hlenk _
    refine ⟨hlenk, ?_, hsort⟩
    intro p hp
    obtain ⟨h1, h2, h3, _⟩ := hpaths p hp
    exact ⟨h1, h2, h3⟩
  | succ fuel ih =>
    intro heap counts paths b hheap hpaths hsort hlenk hlenk0
    rw [searchLoop_succ]
    cases hpop : popMin heap with
    | none =>
      refine ⟨hlenk, ?_, hsort⟩
      intro p hp
      obtain ⟨h1, h2, h3, _⟩ := hpaths p hp
      exact ⟨h1, h2, h3⟩
    | some pr =>
      obtain ⟨state, heap'⟩ := pr
      dsimp only
      obtain ⟨hperm, hmin⟩ := popMin_spec heap state heap' hpop
      obtain ⟨hsvalid, hscost, hslen, hsb⟩ :=
        hheap state (hperm.mem_iff.mpr (List.mem_cons_self state heap'))
      have hheap' : ∀ s ∈ heap', validWalk g origin s.path s.node = true ∧
          s.cost = pathCost req s.path ∧ s.path.length ≤ req.max_segments ∧
          state.cost ≤ s.cost := by
        intro s hs
        obtain ⟨h1, h2, h3, _⟩ :=
          hheap s (hperm.mem_iff.mpr (List.mem_cons_of_mem state hs))
        exact ⟨h1, h2, h3, hmin s hs⟩
      have hpaths' : ∀ p ∈ paths, validWalk g origin p destination = true ∧
          p ≠ [] ∧ p.length ≤ req.max_segments ∧
          pathCost req p ≤ state.cost := by
        intro p hp
        obtain ⟨h1, h2, h3, h4⟩ := hpaths p hp
        exact ⟨h1, h2, h3, le_trans h4 hsb⟩
      by_cases hcount : k < counts state.node + 1
      · rw [if_pos hcount]
        exact ih heap' _ paths state.cost hheap' hpaths' hsort hlenk hlenk0
      · rw [if_neg hcount]
        by_cases hdest : state.node = destination ∧ state.path ≠ []
        · rw [if_pos hdest]
          have hplen : paths.length < k := by
            have hk1 : 1 ≤ k := by omega
            rcases Nat.lt_or_ge paths.length k with h | h
            · exact h
            · have heq : paths.length = k := le_antisymm hlenk h
              have h0 := hlenk0 heq
              omega
          have hnew : ∀ p ∈ paths ++ [state.path],
              validWalk g origin p destination = true ∧ p ≠ [] ∧
              p.length ≤ req.max_segments ∧
              pathCost req p ≤ state.cost := by
            intro p hp
            rcases List.mem_append.mp hp with hp | hp
            · exact hpaths' p hp
            · rw [List.mem_singleton] at hp
              subst hp
              refine ⟨?_, hdest.2, hslen, le_of_eq hscost.symm⟩
              rw [← hdest.1]
              exact hsvalid
          have hnewsort : ((paths ++ [state.path]).map
              (pathCost req)).Sorted (· ≤ ·) := by
            rw [List.map_append]
            refine List.pairwise_append.mpr ⟨hsort, ?_, ?_⟩
            · simp
            · intro a ha bb hb
              rw [List.mem_map] at ha
              obtain ⟨p, hpmem, rfl⟩ := ha
              simp only [List.map_cons, List.map_nil, List.mem_singleton] at hb
              subst hb
              calc pathCost req p ≤ b := (hpaths p hpmem).2.2.2
                _ ≤ state.cost := hsb
                _ = pathCost req state.path := hscost
          by_cases hfull : k ≤ (paths ++ [state.path]).length
          · rw [if_pos hfull]
            refine ⟨?_, ?_, hnewsort⟩
            · rw [List.length_append]
              simp only [List.length_cons, List.length_nil]
              omega
            · intro p hp
              obtain ⟨h1, h2, h3, _⟩ := hnew p hp
              exact ⟨h1, h2, h3⟩
          · rw [if_neg hfull]
            apply ih heap' _ (paths ++ [state.path]) state.cost hheap' hnew
              hnewsort
            · rw [List.length_append] at hfull ⊢
              simp only [List.length_cons, List.length_nil] at hfull ⊢
              omega
            · rw [List.length_append]
              simp only [List.length_cons, List.length_nil]
              intro hL
              rw [List.length_append] at hfull
              simp only [List.length_cons, List.length_nil] at hfull
              omega
        · rw [if_neg hdest]
          by_cases hseg : req.max_segments ≤ state.path.length
          · rw [if_pos hseg]
            exact ih heap' _ paths state.cost hheap' hpaths' hsort hlenk hlenk0
          · rw [if_neg hseg]
            apply ih (heap' ++ stepChildren g req state) _ paths state.cost ?_
              hpaths' hsort hlenk hlenk0
            intro s hs
            rcases List.mem_append.mp hs with hs | hs
            · exact hheap' s hs
            · obtain ⟨t, e, hmem, hpath, hnode, hcost⟩ :=
                stepChildren_spec g req state s hs
              refine ⟨?_, ?_, ?_, ?_⟩
              · rw [hpath, hnode]
                exact validWalk_append state.path origin state.node t e
                  hsvalid hmem
              · rw [hcost, hpath, pathCost_append, hscost]
              · rw [hpath, List.length_append]
                simp only [List.length_cons, List.length_nil]
                omega
              · rw [hcost]
                have h0 := hc (state.node, t, e) hmem
                exact le_add_of_nonneg_right h0

/-- C2: with non-negative edge costs, `find_k_shortest_paths` at cap
`K = max_routes · 3` returns at most K paths, each a non-empty walk in
the graph from the origin handle to the destination handle of at most
`max_segments` edges, in non-decreasing order of accumulated monetary
cost (the sum over edges of `base_cost_usd + cost_per_kg · weight_kg`). -/
theorem C2_k_shortest_paths_sound (g : TransportGraph) (req : OptimizeRequest)
    (origin destination : ℕ)
    (hc : ∀ ed ∈ g.edges, 0 ≤ ed.2.2.calculate_cost req.weight_kg) :
    (find_k_shortest_paths g origin destination req
      (req.max_routes * 3)).length ≤ req.max_routes * 3 ∧
    (∀ p ∈ find_k_shortest_paths g origin destination req
        (req.max_routes * 3),
      validWalk g origin p destination = true ∧ p ≠ [] ∧
      p.length ≤ req.max_segments) ∧
    ((find_k_shortest_paths g origin destination req
      (req.max_routes * 3)).map (pathCost req)).Sorted (· ≤ ·) := by
  unfold find_k_shortest_paths
  apply searchLoop_spec g req origin destination (req.max_routes * 3) hc _ _ _ _ 0
  · intro s hs
    rw [List.mem_singleton] at hs
    subst hs
    refine ⟨?_, rfl, Nat.zero_le _, le_refl 0⟩
    simp [validWalk]
  · intro p hp
    exact absurd hp (List.not_mem_nil p)
  · simp
  · exact Nat.zero_le _
  · intro h
    exact h.symm

/-- Witness for C2 on the one-edge example graph: the cost list of the
returned paths is sorted and the count is within the cap. -/
theorem C2_k_shortest_paths_sound_witness :
    (find_k_shortest_paths exGraph1 0 1 baseReq
      (baseReq.max_routes * 3)).length ≤ baseReq.max_routes * 3 := by
  exact (C2_k_shortest_paths_sound exGraph1 baseReq 0 1 (by decide)).1

end VEDS
